import Mathlib

/-!
# Verification of the gap/channel router core (`gcr` / `src`)

Shallow embedding of the geometric placement kernel (`gcr/routing_area.py`),
the entities (`gcr/entities.py`), the containers (`gcr/containers.py`), the
preprocessing (`src/preprocessing.py`) and the bundle scheduler and density
sweep (`src/algorithms.py`).  Python `Decimal` values are modelled as `ℚ`
(exact arithmetic; the code only adds, subtracts, multiplies, divides,
compares and takes `min`/`max`/`//`/`%`, all of which are exact on both).
The `intervaltree` library's half-open interval semantics are modelled
explicitly:

* `tree.overlap(b, e)` returns the intervals `iv` with `iv.begin < e` and
  `iv.end > b`, and returns the empty set when `b ≥ e`;
* `tree.at(p)` returns the intervals `iv` with `iv.begin ≤ p < iv.end`.

Trees are modelled as lists of their member intervals; the only tree
consumers in the verified code are order-insensitive folds (`max`,
set-membership tests), so the list order is irrelevant where it matters.
-/

namespace GCR

/-- The kind of object stored by an `Allocation` (`entities.Net`,
`entities.Shield`, `entities.Blockage`).  `gcr` code distinguishes them with
`isinstance` checks. -/
inductive AKind where
  | net
  | shield
  | blockage
  deriving DecidableEq, Repr

/-- The `entities.Allocatables` interface: everything `RoutingArea.get_offset`
reads from an item it is asked to place (`x_interval`, `width`,
`upper_space`, `lower_space`), plus the `isinstance` tag used by
`RoutingArea.allocate` for dispatch.  `Net` and `Shield` instantiate it with
`up = lo = space`; a group-shield `ShieldedNetList` instantiates it with its
composed total width and its end nets' spaces. -/
structure Item where
  kind : AKind
  xlo : ℚ
  xhi : ℚ
  w : ℚ
  up : ℚ
  lo : ℚ
  deriving DecidableEq, Repr

/-- `entities.Blockage`: a rectangle placed at absolute y. -/
structure BlockageE where
  xlo : ℚ
  xhi : ℚ
  ylo : ℚ
  yhi : ℚ
  deriving DecidableEq, Repr

/-- The `Allocatables` view of a `Blockage`: `width = y_max - y_min`,
`upper_space = lower_space = 0`. -/
def BlockageE.toItem (b : BlockageE) : Item :=
  ⟨AKind.blockage, b.xlo, b.xhi, b.yhi - b.ylo, 0, 0⟩

/-- `entities.Allocation`: an `Allocatables` plus the vertical offset it was
placed at. -/
structure Alloc where
  item : Item
  off : ℚ
  deriving DecidableEq, Repr

namespace Alloc

/-- `Allocation.y_min`. -/
def y_min (a : Alloc) : ℚ := a.off

/-- `Allocation.y_max`. -/
def y_max (a : Alloc) : ℚ := a.off + a.item.w

/-- `Allocation.y_max_with_space`. -/
def y_max_with_space (a : Alloc) : ℚ := a.off + a.item.w + a.item.up

/-- `Allocation.upper_space` (delegates to the stored data). -/
def up (a : Alloc) : ℚ := a.item.up

/-- `Allocation.lower_space`. -/
def lo (a : Alloc) : ℚ := a.item.lo

theorem y_min_def (a : Alloc) : a.y_min = a.off := rfl

theorem y_max_def (a : Alloc) : a.y_max = a.off + a.item.w := rfl

theorem y_max_with_space_def (a : Alloc) :
    a.y_max_with_space = a.off + a.item.w + a.item.up := rfl

theorem up_def (a : Alloc) : a.up = a.item.up := rfl

theorem lo_def (a : Alloc) : a.lo = a.item.lo := rfl

end Alloc

/-- `RoutingArea` state: its y-extent `width`, its y-position `height`, the
contents of the x-interval tree, and `init_ceilings`. -/
structure RoutingArea where
  width : ℚ
  height : ℚ
  allocs : List Alloc
  init_ceilings : List ℚ
  deriving DecidableEq, Repr

/-- The empty routing area (fresh `RoutingArea(id, width, height)`). -/
def RoutingArea.empty (w h : ℚ) : RoutingArea := ⟨w, h, [], []⟩

/-- `RoutingArea.x_overlapped_allocations(x_iv)`:
`x_iv_tree.overlap(x_iv)`, i.e. the allocations whose x-interval overlaps the
half-open query interval; the interval tree returns the empty set for a null
query range (`begin ≥ end`). -/
def x_overlapped_allocations (A : RoutingArea) (xlo xhi : ℚ) : List Alloc :=
  A.allocs.filter (fun a => xlo < xhi ∧ a.item.xlo < xhi ∧ xlo < a.item.xhi)

/-- `entities.SpaceType`. -/
inductive SpaceTypeE where
  | ABOVE
  | BELOW
  deriving DecidableEq, Repr

/-- Payload of a y-interval in `build_y_intervaltree`: either an
`Allocation` or an auxiliary `Space`. -/
inductive YData where
  | alloc (a : Alloc)
  | space (t : SpaceTypeE)
  deriving DecidableEq, Repr

/-- A y-interval with payload, as stored in the y interval tree. -/
structure YIv where
  lo : ℚ
  hi : ℚ
  data : YData
  deriving DecidableEq, Repr

/-- `RoutingArea.build_y_intervaltree(allocs, include_space)`: for each
allocation its y-interval, plus (when `include_space`) a `BELOW` space for a
positive lower margin and an `ABOVE` space for a positive upper margin. -/
def build_y_intervaltree (allocs : List Alloc) (include_space : Bool) : List YIv :=
  allocs.flatMap (fun a =>
    [⟨a.y_min, a.y_max, YData.alloc a⟩]
      ++ (if include_space then
            (if a.lo > 0 then [⟨a.off - a.lo, a.off, YData.space SpaceTypeE.BELOW⟩] else [])
              ++ (if a.up > 0 then
                    [⟨a.y_max_with_space - a.up, a.y_max_with_space, YData.space SpaceTypeE.ABOVE⟩]
                  else [])
          else []))

/-- `RoutingArea.y_max_space_min(allocs)`: `(0, 0)` on the empty list,
otherwise the maximal `y_max_with_space` paired with the least `upper_space`
among the allocations attaining it (the Python loop starts `space_min` at
`inf` and lowers it at each attaining allocation). -/
def y_max_space_min (allocs : List Alloc) : ℚ × ℚ :=
  match allocs with
  | [] => (0, 0)
  | a :: rest =>
    let ymax := rest.foldl (fun m x => max m x.y_max_with_space) a.y_max_with_space
    let smin :=
      match (allocs.filter (fun x => x.y_max_with_space = ymax)).map Alloc.up with
      | [] => 0
      | u :: us => us.foldl min u
    (ymax, smin)

/-- The loop body of `get_ceiling_space`: walk the intervals containing the
ceiling, rejecting an `ABOVE` space or a non-space interval not starting at
the ceiling, otherwise accumulating `max (ceiling - begin)`. -/
def ceilingLoop (c : ℚ) : List YIv → ℚ → Option ℚ
  | [], acc => some acc
  | iv :: rest, acc =>
    match iv.data with
    | YData.alloc _ =>
        if iv.lo = c then ceilingLoop c rest (max acc (c - iv.lo)) else none
    | YData.space t =>
        match t with
        | SpaceTypeE.ABOVE => none
        | SpaceTypeE.BELOW => ceilingLoop c rest (max acc (c - iv.lo))

/-- `RoutingArea.get_ceiling_space(ceiling, x_iv)`. -/
def get_ceiling_space (A : RoutingArea) (c : ℚ) (xlo xhi : ℚ) : Option ℚ :=
  let xov := x_overlapped_allocations A xlo xhi
  let tree := build_y_intervaltree xov true
  let overlapped := tree.filter (fun iv => iv.lo ≤ c ∧ c < iv.hi)
  ceilingLoop c overlapped 0

/-- `RoutingArea.get_offset(alc, ceiling)`.  `ceiling = none` models the
Python default `None`, replaced by the area width. -/
def get_offset (A : RoutingArea) (it : Item) (ceiling : Option ℚ) : Option ℚ :=
  match get_ceiling_space A (ceiling.getD A.width) it.xlo it.xhi with
  | none => none
  | some ceiling_space =>
    let c := ceiling.getD A.width
    let y_iv_tree := build_y_intervaltree (x_overlapped_allocations A it.xlo it.xhi) false
    let below := y_iv_tree.filter (fun iv =>
      ((0 : ℚ) < c ∧ iv.lo < c ∧ 0 < iv.hi) ∧ ¬(iv.lo ≤ c ∧ c < iv.hi))
    let allocs_below := below.filterMap (fun iv =>
      match iv.data with
      | YData.alloc a => some a
      | YData.space _ => none)
    let p := y_max_space_min allocs_below
    let offset := p.1 - p.2 + max p.2 it.lo
    if offset + it.w + max it.up ceiling_space > c then none else some offset

/-- `RoutingArea.allocatable(alc, ceiling)`. -/
def allocatable (A : RoutingArea) (it : Item) (ceiling : Option ℚ) : Bool :=
  (get_offset A it ceiling).isSome

/-- `RoutingArea.__allocate_net` (also `__allocate_shield`, which delegates to
it): compute the offset, fail (`None`, modelling the raised `ValueError`)
when unplaceable, otherwise record the allocation and return its
`y_max_with_space`. -/
def allocate_net (A : RoutingArea) (it : Item) (ceiling : Option ℚ) :
    Option (RoutingArea × ℚ) :=
  match get_offset A it ceiling with
  | none => none
  | some off =>
    let a : Alloc := ⟨it, off⟩
    some ({ A with allocs := A.allocs ++ [a] }, a.y_max_with_space)

/-- `RoutingArea.allocate` on a `Blockage`: the blockage's `y_min` and
`y_max` are appended to `init_ceilings` *before* `__allocate_blockage`
validates, so the returned state carries the appended ceilings even when the
call fails (second component `none` models the raised `ValueError`). -/
def allocate_blockage (A : RoutingArea) (b : BlockageE) : RoutingArea × Option ℚ :=
  let A1 := { A with init_ceilings := A.init_ceilings ++ [b.ylo, b.yhi] }
  if (build_y_intervaltree (x_overlapped_allocations A b.xlo b.xhi) false).any
      (fun iv => b.ylo < b.yhi ∧ iv.lo < b.yhi ∧ b.ylo < iv.hi) then
    (A1, none)
  else
    let a : Alloc := ⟨b.toItem, b.ylo⟩
    ({ A1 with allocs := A1.allocs ++ [a] }, some a.y_max_with_space)

/-- `RoutingArea.__allocate_netlist`: allocate the elements of a
`ShieldedNetList` (or plain list) sequentially under the same ceiling.  A
`Blockage` element raises (`none`); a failing element placement raises
(`none`).  The second component is the running `y_max` variable, which stays
`None` for an empty list. -/
def allocate_netlist : RoutingArea → List Item → Option ℚ → Option (RoutingArea × Option ℚ)
  | A, [], _ => some (A, none)
  | A, it :: rest, c =>
    if it.kind = AKind.blockage then none
    else
      match allocate_net A it c with
      | none => none
      | some (A', y) =>
        match allocate_netlist A' rest c with
        | none => none
        | some (A'', yrest) => some (A'', some (yrest.getD y))

/-- One value of a `ShieldDict`: a group-shield `ShieldedNetList` is
allocated as a single unit through `__allocate_net` (duck-typed via its
`Allocatables` interface, here an `Item`); any other `ShieldedNetList` is
allocated elementwise through `__allocate_netlist`. -/
inductive SDEntry where
  | unit (it : Item)
  | stack (items : List Item)

/-- The iteration of `__allocate_shielddict` (and, over merged intervals, of
`__allocate_overlappedintervaldict`), collecting each entry's terminal
`y_max`. -/
def allocate_sd_entries : RoutingArea → List SDEntry → Option ℚ →
    Option (RoutingArea × List (Option ℚ))
  | A, [], _ => some (A, [])
  | A, e :: rest, c =>
    let step : Option (RoutingArea × Option ℚ) :=
      match e with
      | SDEntry.unit it =>
          if it.kind = AKind.blockage then none
          else (allocate_net A it c).map (fun p => (p.1, some p.2))
      | SDEntry.stack its => allocate_netlist A its c
    match step with
    | none => none
    | some (A', y) =>
      match allocate_sd_entries A' rest c with
      | none => none
      | some (A'', ys) => some (A'', y :: ys)

/-- Python's `max()` over the collected `y_maxs` list: raises on an empty
list and on a `None` member (comparing `None` with a `Decimal` raises). -/
def pyMaxOpt (ys : List (Option ℚ)) : Option ℚ :=
  match ys.filterMap id with
  | [] => none
  | z :: zs => if ys.all Option.isSome then some (zs.foldl max z) else none

/-- `RoutingArea.__allocate_shielddict`. -/
def allocate_shielddict (A : RoutingArea) (entries : List SDEntry) (c : Option ℚ) :
    Option (RoutingArea × ℚ) :=
  match allocate_sd_entries A entries c with
  | none => none
  | some (A', ys) => (pyMaxOpt ys).map (fun y => (A', y))

/-- `RoutingArea.__allocate_overlappedintervaldict`: iterate the merged
intervals' shield dicts, returning the maximal terminal height. -/
def allocate_oid : RoutingArea → List (List SDEntry) → Option ℚ →
    Option (RoutingArea × List ℚ)
  | A, [], _ => some (A, [])
  | A, sd :: rest, c =>
    match allocate_shielddict A sd c with
    | none => none
    | some (A', y) =>
      match allocate_oid A' rest c with
      | none => none
      | some (A'', ys) => some (A'', y :: ys)

/-! ## Well-formed inputs and reachable routing-area states

The data model of the router guarantees that every `Allocatables` offered to
`RoutingArea.allocate` has a positive width, non-negative spacings and a
non-degenerate x-interval (`Net.__init__` widens a degenerate trunk), and
that a `Blockage` rectangle has `y_min ≤ y_max` and `x_min < x_max`. -/

/-- A well-formed `Net`/`Shield`-like placement request (also covers a
group-shield `ShieldedNetList` allocated as a unit). -/
def wfItem (it : Item) : Prop :=
  0 < it.w ∧ 0 ≤ it.up ∧ 0 ≤ it.lo ∧ it.xlo < it.xhi ∧ it.kind ≠ AKind.blockage

/-- A well-formed `Blockage`. -/
def wfBlock (b : BlockageE) : Prop := b.ylo ≤ b.yhi ∧ b.xlo < b.xhi

/-- The routing-area states reachable from an empty area by successful
`RoutingArea.allocate` calls on well-formed nets, shields and blockages.
Every successful `allocate` call on a `ShieldedNetList`, `ShieldDict` or
`OverlappedIntervalDict` is, by definition of the dispatchers above, a
finite sequence of successful `allocate_net`/`allocate_blockage` steps, so
these states also cover all container allocations (see the lemmas
`Reachable.netlist`, `Reachable.shielddict`, `Reachable.oid`). -/
inductive Reachable : RoutingArea → Prop
  | init (w h : ℚ) : Reachable (RoutingArea.empty w h)
  | net {A : RoutingArea} {it : Item} {c : Option ℚ} {A' : RoutingArea} {y : ℚ} :
      Reachable A → wfItem it → allocate_net A it c = some (A', y) → Reachable A'
  | blockage {A : RoutingArea} {b : BlockageE} {A' : RoutingArea} {y : ℚ} :
      Reachable A → wfBlock b → allocate_blockage A b = (A', some y) → Reachable A'

theorem Reachable.netlist {A : RoutingArea} {its : List Item} {c : Option ℚ}
    {A' : RoutingArea} {y : Option ℚ} (hA : Reachable A) (hwf : ∀ it ∈ its, wfItem it)
    (h : allocate_netlist A its c = some (A', y)) : Reachable A' := by
  induction its generalizing A y with
  | nil =>
    simp only [allocate_netlist] at h
    obtain ⟨rfl, rfl⟩ := h
    exact hA
  | cons it rest ih =>
    simp only [allocate_netlist] at h
    split at h
    · exact absurd h (by simp)
    · cases hstep : allocate_net A it c with
      | none => rw [hstep] at h; exact absurd h (by simp)
      | some p =>
        obtain ⟨A1, y1⟩ := p
        rw [hstep] at h
        simp only at h
        cases hrest : allocate_netlist A1 rest c with
        | none => rw [hrest] at h; exact absurd h (by simp)
        | some q =>
          obtain ⟨A2, y2⟩ := q
          rw [hrest] at h
          simp only [Option.some.injEq, Prod.mk.injEq] at h
          obtain ⟨rfl, -⟩ := h
          exact ih (hA.net (hwf it (by simp)) hstep) (fun x hx => hwf x (by simp [hx])) hrest

/-- Well-formedness of every item occurring in a `ShieldDict` value. -/
def wfSDEntry : SDEntry → Prop
  | SDEntry.unit it => wfItem it
  | SDEntry.stack its => ∀ it ∈ its, wfItem it

theorem Reachable.sd_entries {A : RoutingArea} {es : List SDEntry} {c : Option ℚ}
    {A' : RoutingArea} {ys : List (Option ℚ)} (hA : Reachable A)
    (hwf : ∀ e ∈ es, wfSDEntry e)
    (h : allocate_sd_entries A es c = some (A', ys)) : Reachable A' := by
  induction es generalizing A ys with
  | nil =>
    simp only [allocate_sd_entries] at h
    obtain ⟨rfl, rfl⟩ := h
    exact hA
  | cons e rest ih =>
    simp only [allocate_sd_entries] at h
    cases e with
    | unit it =>
      simp only at h
      by_cases hk : it.kind = AKind.blockage
      · rw [if_pos hk] at h
        exact absurd h (by simp)
      · rw [if_neg hk] at h
        cases hstep : allocate_net A it c with
        | none => rw [hstep] at h; exact absurd h (by simp)
        | some p =>
          obtain ⟨A1, y1⟩ := p
          rw [hstep] at h
          simp only [Option.map_some'] at h
          cases hrest : allocate_sd_entries A1 rest c with
          | none => rw [hrest] at h; exact absurd h (by simp)
          | some q =>
            obtain ⟨A2, ys2⟩ := q
            rw [hrest] at h
            simp only [Option.some.injEq, Prod.mk.injEq] at h
            obtain ⟨rfl, -⟩ := h
            have hw : wfItem it := hwf (SDEntry.unit it) (by simp)
            exact ih (hA.net hw hstep)
              (fun x hx => hwf x (by simp [hx])) hrest
    | stack its =>
      simp only at h
      cases hstep : allocate_netlist A its c with
      | none => rw [hstep] at h; exact absurd h (by simp)
      | some p =>
        obtain ⟨A1, y1⟩ := p
        rw [hstep] at h
        simp only at h
        cases hrest : allocate_sd_entries A1 rest c with
        | none => rw [hrest] at h; exact absurd h (by simp)
        | some q =>
          obtain ⟨A2, ys2⟩ := q
          rw [hrest] at h
          simp only [Option.some.injEq, Prod.mk.injEq] at h
          obtain ⟨rfl, -⟩ := h
          have hw : ∀ x ∈ its, wfItem x := hwf (SDEntry.stack its) (by simp)
          exact ih (hA.netlist hw hstep)
            (fun x hx => hwf x (by simp [hx])) hrest

theorem Reachable.shielddict {A : RoutingArea} {es : List SDEntry} {c : Option ℚ}
    {A' : RoutingArea} {y : ℚ} (hA : Reachable A) (hwf : ∀ e ∈ es, wfSDEntry e)
    (h : allocate_shielddict A es c = some (A', y)) : Reachable A' := by
  unfold allocate_shielddict at h
  cases hes : allocate_sd_entries A es c with
  | none => rw [hes] at h; exact absurd h (by simp)
  | some p =>
    obtain ⟨A1, ys1⟩ := p
    rw [hes] at h
    simp only at h
    have : A' = A1 := by
      cases hm : pyMaxOpt ys1 with
      | none => rw [hm] at h; exact absurd h (by simp)
      | some z =>
        rw [hm] at h
        simp only [Option.map_some', Option.some.injEq, Prod.mk.injEq] at h
        exact h.1.symm
    exact this ▸ hA.sd_entries hwf hes

theorem Reachable.oid {A : RoutingArea} {sds : List (List SDEntry)} {c : Option ℚ}
    {A' : RoutingArea} {ys : List ℚ} (hA : Reachable A)
    (hwf : ∀ sd ∈ sds, ∀ e ∈ sd, wfSDEntry e)
    (h : allocate_oid A sds c = some (A', ys)) : Reachable A' := by
  induction sds generalizing A ys with
  | nil =>
    simp only [allocate_oid] at h
    obtain ⟨rfl, rfl⟩ := h
    exact hA
  | cons sd rest ih =>
    simp only [allocate_oid] at h
    cases hstep : allocate_shielddict A sd c with
    | none => rw [hstep] at h; exact absurd h (by simp)
    | some p =>
      obtain ⟨A1, y1⟩ := p
      rw [hstep] at h
      simp only at h
      cases hrest : allocate_oid A1 rest c with
      | none => rw [hrest] at h; exact absurd h (by simp)
      | some q =>
        obtain ⟨A2, ys2⟩ := q
        rw [hrest] at h
        simp only [Option.some.injEq, Prod.mk.injEq] at h
        obtain ⟨rfl, -⟩ := h
        exact ih (hA.shielddict (hwf _ (by simp)) hstep)
          (fun x hx e he => hwf x (by simp [hx]) e he) hrest

/-! ## Basic lemmas about the kernel's queries -/

theorem foldl_maxy_init_le (l : List Alloc) (i : ℚ) :
    i ≤ l.foldl (fun m x => max m x.y_max_with_space) i := by
  induction l generalizing i with
  | nil => exact le_refl i
  | cons a rest ih =>
    exact le_trans (le_max_left i a.y_max_with_space) (ih (max i a.y_max_with_space))

theorem foldl_maxy_mem_le {l : List Alloc} {a : Alloc} (h : a ∈ l) (i : ℚ) :
    a.y_max_with_space ≤ l.foldl (fun m x => max m x.y_max_with_space) i := by
  induction l generalizing i with
  | nil => exact absurd h (List.not_mem_nil a)
  | cons b rest ih =>
    rcases List.mem_cons.mp h with rfl | hmem
    · exact le_trans (le_max_right i a.y_max_with_space)
        (foldl_maxy_init_le rest (max i a.y_max_with_space))
    · exact ih hmem (max i b.y_max_with_space)

/-- Every member's `y_max_with_space` is bounded by the `y_max` component of
`y_max_space_min`. -/
theorem yws_le_y_max_space_min {l : List Alloc} {a : Alloc} (h : a ∈ l) :
    a.y_max_with_space ≤ (y_max_space_min l).1 := by
  cases l with
  | nil => exact absurd h (List.not_mem_nil a)
  | cons b rest =>
    rcases List.mem_cons.mp h with rfl | hmem
    · exact foldl_maxy_init_le rest a.y_max_with_space
    · exact foldl_maxy_mem_le hmem b.y_max_with_space

theorem y_max_space_min_nil : y_max_space_min [] = (0, 0) := rfl

/-- A successful `get_ceiling_space` loop never decreases its accumulator. -/
theorem ceilingLoop_acc_le {c : ℚ} {l : List YIv} {acc r : ℚ}
    (h : ceilingLoop c l acc = some r) : acc ≤ r := by
  induction l generalizing acc with
  | nil => simp only [ceilingLoop, Option.some.injEq] at h; exact h ▸ le_refl acc
  | cons iv rest ih =>
    simp only [ceilingLoop] at h
    rcases hd : iv.data with a | t
    · rw [hd] at h
      by_cases hlo : iv.lo = c
      · rw [if_pos hlo] at h
        exact le_trans (le_max_left acc (c - iv.lo)) (ih h)
      · rw [if_neg hlo] at h; exact absurd h (by simp)
    · rw [hd] at h
      cases t with
      | ABOVE => exact absurd h (by simp)
      | BELOW => exact le_trans (le_max_left acc (c - iv.lo)) (ih h)

/-- If the `get_ceiling_space` loop succeeds, every non-space interval it
walked starts exactly at the ceiling (and no `ABOVE` space was present). -/
theorem ceilingLoop_some_alloc {c : ℚ} {l : List YIv} {acc r : ℚ}
    (h : ceilingLoop c l acc = some r) {iv : YIv} (hiv : iv ∈ l) {a : Alloc}
    (hd : iv.data = YData.alloc a) : iv.lo = c := by
  induction l generalizing acc with
  | nil => exact absurd hiv (List.not_mem_nil iv)
  | cons jv rest ih =>
    simp only [ceilingLoop] at h
    rcases List.mem_cons.mp hiv with rfl | hmem
    · rw [hd] at h
      by_cases hlo : iv.lo = c
      · exact hlo
      · rw [if_neg hlo] at h; exact absurd h (by simp)
    · rcases hjd : jv.data with b | t
      · rw [hjd] at h
        by_cases hlo : jv.lo = c
        · rw [if_pos hlo] at h; exact ih h hmem
        · rw [if_neg hlo] at h; exact absurd h (by simp)
      · rw [hjd] at h
        cases t with
        | ABOVE => exact absurd h (by simp)
        | BELOW => exact ih h hmem

theorem mem_x_overlapped_iff {A : RoutingArea} {xlo xhi : ℚ} {a : Alloc} :
    a ∈ x_overlapped_allocations A xlo xhi ↔
      a ∈ A.allocs ∧ (xlo < xhi ∧ a.item.xlo < xhi ∧ xlo < a.item.xhi) := by
  simp [x_overlapped_allocations, List.mem_filter]

/-- The allocation's own y-interval is a member of the y-interval tree built
over any list containing the allocation. -/
theorem mem_build_y {l : List Alloc} {a : Alloc} (h : a ∈ l) (sp : Bool) :
    (⟨a.y_min, a.y_max, YData.alloc a⟩ : YIv) ∈ build_y_intervaltree l sp := by
  unfold build_y_intervaltree
  refine List.mem_flatMap.mpr ⟨a, h, ?_⟩
  simp

/-- The filter/extract pipeline of `get_offset` computes exactly the
x-overlapping allocations whose y-intervals overlap `[0, ceiling)` and do
not contain the point `ceiling`. -/
theorem allocs_below_extract (xov : List Alloc) (c : ℚ) :
    ((build_y_intervaltree xov false).filter (fun iv =>
        ((0 : ℚ) < c ∧ iv.lo < c ∧ 0 < iv.hi) ∧ ¬(iv.lo ≤ c ∧ c < iv.hi))).filterMap
        (fun iv => match iv.data with
          | YData.alloc a => some a
          | YData.space _ => none)
      = xov.filter (fun a =>
          ((0 : ℚ) < c ∧ a.y_min < c ∧ 0 < a.y_max) ∧ ¬(a.y_min ≤ c ∧ c < a.y_max)) := by
  induction xov with
  | nil => rfl
  | cons a rest ih =>
    have hstep : build_y_intervaltree (a :: rest) false
        = (⟨a.y_min, a.y_max, YData.alloc a⟩ : YIv) :: build_y_intervaltree rest false := by
      simp [build_y_intervaltree]
    rw [hstep, List.filter_cons, List.filter_cons]
    by_cases hp : ((0 : ℚ) < c ∧ a.y_min < c ∧ 0 < a.y_max) ∧ ¬(a.y_min ≤ c ∧ c < a.y_max)
    · rw [if_pos (decide_eq_true hp), if_pos (decide_eq_true hp), List.filterMap_cons]
      simp only []
      rw [ih]
    · rw [if_neg (by simpa using hp), if_neg (by simpa using hp)]
      exact ih

/-- The allocations x-overlapping the candidate whose y-intervals overlap
`[0, ceiling)` and do not contain the point `ceiling` — the set fed into
`y_max_space_min` by `get_offset` (equal to its filter/extract pipeline by
`allocs_below_extract`). -/
def belowFilter (A : RoutingArea) (it : Item) (c : ℚ) : List Alloc :=
  (x_overlapped_allocations A it.xlo it.xhi).filter (fun a =>
    ((0 : ℚ) < c ∧ a.y_min < c ∧ 0 < a.y_max) ∧ ¬(a.y_min ≤ c ∧ c < a.y_max))

/-- The candidate offset computed by `get_offset` under ceiling `c`. -/
def offsetFormula (A : RoutingArea) (it : Item) (c : ℚ) : ℚ :=
  (y_max_space_min (belowFilter A it c)).1 - (y_max_space_min (belowFilter A it c)).2
    + max (y_max_space_min (belowFilter A it c)).2 it.lo

/-- Branch-free description of `get_offset`. -/
theorem get_offset_eq (A : RoutingArea) (it : Item) (ceiling : Option ℚ) :
    get_offset A it ceiling =
      match get_ceiling_space A (ceiling.getD A.width) it.xlo it.xhi with
      | none => none
      | some cs =>
        if offsetFormula A it (ceiling.getD A.width) + it.w + max it.up cs
            > ceiling.getD A.width then none
        else some (offsetFormula A it (ceiling.getD A.width)) := by
  unfold get_offset
  cases hcs : get_ceiling_space A (ceiling.getD A.width) it.xlo it.xhi with
  | none => rfl
  | some cs =>
    simp only [allocs_below_extract]
    rfl

/-- Unfolding of a successful `get_offset`: the ceiling is valid, the offset
is the `y_max_space_min` formula over the allocations strictly below the
ceiling, and the fit check passed. -/
theorem get_offset_some {A : RoutingArea} {it : Item} {ceiling : Option ℚ} {off : ℚ}
    (h : get_offset A it ceiling = some off) :
    ∃ cs, get_ceiling_space A (ceiling.getD A.width) it.xlo it.xhi = some cs ∧
      off = offsetFormula A it (ceiling.getD A.width) ∧
      off + it.w + max it.up cs ≤ ceiling.getD A.width := by
  rw [get_offset_eq] at h
  cases hcs : get_ceiling_space A (ceiling.getD A.width) it.xlo it.xhi with
  | none => rw [hcs] at h; exact absurd h (by simp)
  | some cs =>
    rw [hcs] at h
    simp only at h
    by_cases hfit : offsetFormula A it (ceiling.getD A.width) + it.w + max it.up cs
        > ceiling.getD A.width
    · rw [if_pos hfit] at h; exact absurd h (by simp)
    · rw [if_neg hfit] at h
      simp only [Option.some.injEq] at h
      exact ⟨cs, rfl, h.symm, by rw [← h]; exact not_lt.mp hfit⟩

/-! ## The spacing invariant maintained by `RoutingArea.allocate` -/

/-- Structural facts true of every allocation the kernel ever stores:
non-negative spaces and width; a blockage has zero spaces; a net/shield
allocation sits at a non-negative offset and has positive width. -/
def wfAlloc (a : Alloc) : Prop :=
  0 ≤ a.up ∧ 0 ≤ a.lo ∧ 0 ≤ a.item.w ∧
    (a.item.kind = AKind.blockage → a.up = 0 ∧ a.lo = 0) ∧
    (a.item.kind ≠ AKind.blockage → 0 ≤ a.off ∧ 0 < a.item.w)

/-- The x-intervals of two allocations overlap (both half-open). -/
def xOv (a b : Alloc) : Prop :=
  a.item.xlo < b.item.xhi ∧ b.item.xlo < a.item.xhi

/-- The spacing the kernel actually guarantees for an ordered x-overlapping
pair: when `a` lies below `b` and `b` is not a blockage, the gap above `a`
covers `a`'s upper spacing requirement. -/
def spacedPair (a b : Alloc) : Prop :=
  a.y_max ≤ b.y_min → b.item.kind ≠ AKind.blockage → a.y_max + a.up ≤ b.y_min

/-- The routing-area invariant. -/
def Inv (A : RoutingArea) : Prop :=
  (∀ a ∈ A.allocs, wfAlloc a) ∧
    ∀ a ∈ A.allocs, ∀ b ∈ A.allocs, xOv a b → spacedPair a b

theorem inv_empty (w h : ℚ) : Inv (RoutingArea.empty w h) := by
  constructor <;> intro a ha <;> exact absurd ha (List.not_mem_nil a)

/-- Core estimate: the candidate offset dominates `y_max_with_space` of
every allocation counted as below the ceiling. -/
theorem offsetFormula_ge {A : RoutingArea} {it : Item} {c : ℚ} {v : Alloc}
    (hv : v ∈ belowFilter A it c) :
    v.y_max_with_space ≤ offsetFormula A it c := by
  have h1 : v.y_max_with_space ≤ (y_max_space_min (belowFilter A it c)).1 :=
    yws_le_y_max_space_min hv
  have h2 : (y_max_space_min (belowFilter A it c)).2 ≤
      max (y_max_space_min (belowFilter A it c)).2 it.lo := le_max_left _ _
  unfold offsetFormula
  linarith

/-- The candidate offset is non-negative: the below-set only contains
allocations with positive `y_max`, whose `y_max_with_space` is then
positive by well-formedness. -/
theorem offsetFormula_nonneg {A : RoutingArea} {it : Item} {c : ℚ}
    (hwfa : ∀ a ∈ A.allocs, wfAlloc a) (hlo : 0 ≤ it.lo) :
    0 ≤ offsetFormula A it c := by
  cases hbl : belowFilter A it c with
  | nil =>
    unfold offsetFormula
    rw [hbl]
    show (0 : ℚ) ≤ 0 - 0 + max 0 it.lo
    have := le_max_right (0 : ℚ) it.lo
    linarith
  | cons v rest =>
    have hvmem : v ∈ belowFilter A it c := by rw [hbl]; exact List.mem_cons_self v rest
    have hvx : v ∈ x_overlapped_allocations A it.xlo it.xhi := (List.mem_filter.mp hvmem).1
    have hvin : v ∈ A.allocs := (mem_x_overlapped_iff.mp hvx).1
    have hP := of_decide_eq_true (List.mem_filter.mp hvmem).2
    obtain ⟨hvup, -, -, -, -⟩ := hwfa v hvin
    rw [Alloc.up_def] at hvup
    have hyM : (0 : ℚ) < v.y_max := hP.1.2.2
    rw [Alloc.y_max_def] at hyM
    have h1 := offsetFormula_ge hvmem
    rw [Alloc.y_max_with_space_def] at h1
    linarith

/-- A valid ceiling cuts no stored x-overlapping allocation strictly: an
allocation whose y-interval contains the ceiling point must start exactly at
the ceiling. -/
theorem valid_ceiling_cut {A : RoutingArea} {c xlo xhi : ℚ} {cs : ℚ}
    (h : get_ceiling_space A c xlo xhi = some cs) {v : Alloc}
    (hv : v ∈ x_overlapped_allocations A xlo xhi)
    (h1 : v.y_min ≤ c) (h2 : c < v.y_max) : v.y_min = c := by
  unfold get_ceiling_space at h
  have hmem : (⟨v.y_min, v.y_max, YData.alloc v⟩ : YIv) ∈
      (build_y_intervaltree (x_overlapped_allocations A xlo xhi) true).filter
        (fun iv => iv.lo ≤ c ∧ c < iv.hi) :=
    List.mem_filter.mpr ⟨mem_build_y hv true, decide_eq_true ⟨h1, h2⟩⟩
  exact ceilingLoop_some_alloc h hmem rfl

/-- A successful `get_ceiling_space` is non-negative. -/
theorem get_ceiling_space_nonneg {A : RoutingArea} {c xlo xhi : ℚ} {cs : ℚ}
    (h : get_ceiling_space A c xlo xhi = some cs) : 0 ≤ cs :=
  ceilingLoop_acc_le h

/-- Preservation of the invariant by a successful net/shield placement. -/
theorem inv_allocate_net {A : RoutingArea} {it : Item} {c : Option ℚ}
    {A' : RoutingArea} {y : ℚ} (hI : Inv A) (hwf : wfItem it)
    (h : allocate_net A it c = some (A', y)) : Inv A' := by
  obtain ⟨hw, hup, hlo, hx, hk⟩ := hwf
  unfold allocate_net at h
  cases hoff : get_offset A it c with
  | none => rw [hoff] at h; exact absurd h (by simp)
  | some off =>
    rw [hoff] at h
    simp only [Option.some.injEq, Prod.mk.injEq] at h
    obtain ⟨hA', -⟩ := h
    subst hA'
    obtain ⟨cs, hcs, hform, hfit⟩ := get_offset_some hoff
    set C := c.getD A.width with hC
    have hcs0 : 0 ≤ cs := get_ceiling_space_nonneg hcs
    have hoff0 : 0 ≤ off := by rw [hform]; exact offsetFormula_nonneg hI.1 hlo
    have hoffC : off + it.w + it.up ≤ C := by
      have := le_max_left it.up cs
      linarith
    have hCpos : 0 < C := by
      have := le_max_right it.up cs
      linarith
    have key : ∀ v ∈ A.allocs, xOv v ⟨it, off⟩ →
        spacedPair v ⟨it, off⟩ ∧ spacedPair ⟨it, off⟩ v := by
      intro v hv hxv
      obtain ⟨hvup, hvlo, hvw, hvbl, hvnb⟩ := hI.1 v hv
      rw [Alloc.up_def] at hvup
      rw [Alloc.lo_def] at hvlo
      have hvov : v ∈ x_overlapped_allocations A it.xlo it.xhi :=
        mem_x_overlapped_iff.mpr ⟨hv, hx, hxv.1, hxv.2⟩
      by_cases hb : ((0 : ℚ) < C ∧ v.y_min < C ∧ 0 < v.y_max) ∧ ¬(v.y_min ≤ C ∧ C < v.y_max)
      · -- v is counted as strictly below the ceiling
        have hvbelow : v ∈ belowFilter A it C :=
          List.mem_filter.mpr ⟨hvov, decide_eq_true hb⟩
        have hyle : v.y_max_with_space ≤ off := by
          rw [hform]; exact offsetFormula_ge hvbelow
        rw [Alloc.y_max_with_space_def] at hyle
        constructor
        · intro _ _
          simp only [spacedPair, Alloc.y_max_def, Alloc.y_min_def, Alloc.up_def]
          linarith
        · intro h1 _
          exfalso
          simp only [Alloc.y_max_def, Alloc.y_min_def] at h1
          linarith
      · rcases not_and_or.mp hb with hnc | hcont
        · rcases not_and_or.mp hnc with hc0 | hrest
          · exact absurd hCpos hc0
          · rcases not_and_or.mp hrest with hge | hymax
            · -- v starts at or above the ceiling
              push_neg at hge
              rw [Alloc.y_min_def] at hge
              constructor
              · intro h1 _
                exfalso
                simp only [Alloc.y_max_def, Alloc.y_min_def] at h1
                linarith
              · intro _ _
                simp only [Alloc.y_max_def, Alloc.y_min_def, Alloc.up_def]
                linarith
            · -- v lies entirely at or below 0: it must be a blockage
              push_neg at hymax
              rw [Alloc.y_max_def] at hymax
              have hvk : v.item.kind = AKind.blockage := by
                by_contra hnk
                obtain ⟨hvo0, hvwpos⟩ := hvnb hnk
                linarith
              obtain ⟨hvup0, -⟩ := hvbl hvk
              rw [Alloc.up_def] at hvup0
              constructor
              · intro _ _
                simp only [Alloc.y_max_def, Alloc.y_min_def, Alloc.up_def, hvup0]
                linarith
              · intro h1 _
                exfalso
                simp only [Alloc.y_max_def, Alloc.y_min_def] at h1
                linarith
        · -- v's y-interval contains the ceiling point: it starts exactly there
          push_neg at hcont
          have hveq : v.y_min = C := valid_ceiling_cut hcs hvov hcont.1 hcont.2
          rw [Alloc.y_min_def] at hveq
          have hvyC : C < v.y_max := hcont.2
          rw [Alloc.y_max_def] at hvyC
          constructor
          · intro h1 _
            exfalso
            simp only [Alloc.y_max_def, Alloc.y_min_def] at h1
            linarith
          · intro _ _
            simp only [Alloc.y_max_def, Alloc.y_min_def, Alloc.up_def]
            linarith
    constructor
    · intro a ha
      rcases List.mem_append.mp ha with ha' | ha'
      · exact hI.1 a ha'
      · have haeq : a = ⟨it, off⟩ := by simpa using ha'
        subst haeq
        exact ⟨hup, hlo, le_of_lt hw, fun hbk => absurd hbk hk, fun _ => ⟨hoff0, hw⟩⟩
    · intro a ha b hb hab
      rcases List.mem_append.mp ha with ha' | ha' <;>
        rcases List.mem_append.mp hb with hb' | hb'
      · exact hI.2 a ha' b hb' hab
      · have hbeq : b = ⟨it, off⟩ := by simpa using hb'
        subst hbeq
        exact (key a ha' hab).1
      · have haeq : a = ⟨it, off⟩ := by simpa using ha'
        subst haeq
        exact (key b hb' ⟨hab.2, hab.1⟩).2
      · have haeq : a = ⟨it, off⟩ := by simpa using ha'
        have hbeq : b = ⟨it, off⟩ := by simpa using hb'
        subst haeq; subst hbeq
        intro h1 _
        exfalso
        simp only [Alloc.y_max_def, Alloc.y_min_def] at h1
        linarith

/-- Preservation of the invariant by a successful blockage placement. -/
theorem inv_allocate_blockage {A : RoutingArea} {b : BlockageE}
    {A' : RoutingArea} {y : ℚ} (hI : Inv A) (hwf : wfBlock b)
    (h : allocate_blockage A b = (A', some y)) : Inv A' := by
  obtain ⟨hyb, hxb⟩ := hwf
  unfold allocate_blockage at h
  by_cases hcol : (build_y_intervaltree
      (x_overlapped_allocations A b.xlo b.xhi) false).any
      (fun iv => b.ylo < b.yhi ∧ iv.lo < b.yhi ∧ b.ylo < iv.hi)
  · rw [if_pos hcol] at h
    simp only [Prod.mk.injEq] at h
    exact absurd h.2 (by simp)
  · rw [if_neg hcol] at h
    simp only [Prod.mk.injEq] at h
    obtain ⟨hA', -⟩ := h
    subst hA'
    set r : Alloc := ⟨b.toItem, b.ylo⟩ with hr
    constructor
    · intro a ha
      rcases List.mem_append.mp ha with ha' | ha'
      · exact hI.1 a ha'
      · have haeq : a = r := by simpa using ha'
        subst haeq
        refine ⟨le_refl 0, le_refl 0, ?_, fun _ => ⟨rfl, rfl⟩, fun hnk => absurd rfl hnk⟩
        show (0 : ℚ) ≤ b.yhi - b.ylo
        linarith
    · intro a ha b' hb' hab
      rcases List.mem_append.mp ha with ha' | ha' <;>
        rcases List.mem_append.mp hb' with hb'' | hb''
      · exact hI.2 a ha' b' hb'' hab
      · have hbeq : b' = r := by simpa using hb''
        subst hbeq
        intro _ hnb
        exact absurd rfl hnb
      · have haeq : a = r := by simpa using ha'
        subst haeq
        intro h1 _
        simp only [hr, Alloc.y_max_def, Alloc.y_min_def, Alloc.up_def,
          BlockageE.toItem] at h1 ⊢
        linarith
      · have hbeq : b' = r := by simpa using hb''
        subst hbeq
        intro _ hnb
        exact absurd rfl hnb

/-- Every reachable routing-area state satisfies the invariant. -/
theorem inv_of_reachable {A : RoutingArea} (h : Reachable A) : Inv A := by
  induction h with
  | init w hgt => exact inv_empty w hgt
  | net _ hwf hstep ih => exact inv_allocate_net ih hwf hstep
  | blockage _ hwf hstep ih => exact inv_allocate_blockage ih hwf hstep

/-! ## Concrete allocation sequence exhibiting the spacing violation -/

/-- A sequence of six successful `RoutingArea.allocate` calls on an area of
width 100: four nets (the fourth has `space = 10` and lands only `1/2` above
a net with `space = 0`), then an isolated net with `space = 10` and a
blockage placed just `1` above it (blockage validation ignores spaces). -/
def c1Chain : Option RoutingArea :=
  (allocate_net (RoutingArea.empty 100 0) ⟨AKind.net, 0, 2, 1, 10, 10⟩ none).bind fun p1 =>
  (allocate_net p1.1 ⟨AKind.net, 3, 5, 20, 0, 0⟩ none).bind fun p2 =>
  (allocate_net p2.1 ⟨AKind.net, 3, 5, 1/2, 0, 0⟩ none).bind fun p3 =>
  (allocate_net p3.1 ⟨AKind.net, 0, 5, 1, 10, 10⟩ none).bind fun p4 =>
  (allocate_net p4.1 ⟨AKind.net, 6, 8, 1, 10, 10⟩ none).bind fun p5 =>
  match allocate_blockage p5.1 ⟨6, 8, 12, 13⟩ with
  | (A, some _) => some A
  | (_, none) => none

/-- The state produced by `c1Chain`. -/
def c1Final : RoutingArea :=
  ⟨100, 0,
    [⟨⟨AKind.net, 0, 2, 1, 10, 10⟩, 10⟩,
     ⟨⟨AKind.net, 3, 5, 20, 0, 0⟩, 0⟩,
     ⟨⟨AKind.net, 3, 5, 1/2, 0, 0⟩, 20⟩,
     ⟨⟨AKind.net, 0, 5, 1, 10, 10⟩, 21⟩,
     ⟨⟨AKind.net, 6, 8, 1, 10, 10⟩, 10⟩,
     ⟨⟨AKind.blockage, 6, 8, 1, 0, 0⟩, 12⟩],
    [12, 13]⟩

/-- C1, counterexample: after a sequence of successful `allocate` calls from
an empty area, the state holds an x-overlapping pair `a` (a net with
`upper_space = 0`) below `b` (a net with `lower_space = 10`) whose gap is
`1/2 < max(a.upper_space, b.lower_space) = 10`, refuting the claimed
invariant; the same state also holds a net/blockage pair whose gap `1` is
below the lower net's `upper_space = 10`, so even the one-sided bound fails
once blockages are involved. -/
theorem C1_counterexample :
    c1Chain = some c1Final ∧
    ((⟨⟨AKind.net, 3, 5, 1/2, 0, 0⟩, 20⟩ : Alloc) ∈ c1Final.allocs ∧
      (⟨⟨AKind.net, 0, 5, 1, 10, 10⟩, 21⟩ : Alloc) ∈ c1Final.allocs ∧
      xOv ⟨⟨AKind.net, 3, 5, 1/2, 0, 0⟩, 20⟩ ⟨⟨AKind.net, 0, 5, 1, 10, 10⟩, 21⟩ ∧
      Alloc.y_max ⟨⟨AKind.net, 3, 5, 1/2, 0, 0⟩, 20⟩ ≤
        Alloc.y_min ⟨⟨AKind.net, 0, 5, 1, 10, 10⟩, 21⟩ ∧
      ¬(Alloc.y_min ⟨⟨AKind.net, 0, 5, 1, 10, 10⟩, 21⟩ -
          Alloc.y_max ⟨⟨AKind.net, 3, 5, 1/2, 0, 0⟩, 20⟩ ≥
        max (Alloc.up ⟨⟨AKind.net, 3, 5, 1/2, 0, 0⟩, 20⟩)
          (Alloc.lo ⟨⟨AKind.net, 0, 5, 1, 10, 10⟩, 21⟩))) ∧
    ((⟨⟨AKind.net, 6, 8, 1, 10, 10⟩, 10⟩ : Alloc) ∈ c1Final.allocs ∧
      (⟨⟨AKind.blockage, 6, 8, 1, 0, 0⟩, 12⟩ : Alloc) ∈ c1Final.allocs ∧
      xOv ⟨⟨AKind.net, 6, 8, 1, 10, 10⟩, 10⟩ ⟨⟨AKind.blockage, 6, 8, 1, 0, 0⟩, 12⟩ ∧
      Alloc.y_max ⟨⟨AKind.net, 6, 8, 1, 10, 10⟩, 10⟩ ≤
        Alloc.y_min ⟨⟨AKind.blockage, 6, 8, 1, 0, 0⟩, 12⟩ ∧
      ¬(Alloc.y_min ⟨⟨AKind.blockage, 6, 8, 1, 0, 0⟩, 12⟩ -
          Alloc.y_max ⟨⟨AKind.net, 6, 8, 1, 10, 10⟩, 10⟩ ≥
        max (Alloc.up ⟨⟨AKind.net, 6, 8, 1, 10, 10⟩, 10⟩)
          (Alloc.lo ⟨⟨AKind.blockage, 6, 8, 1, 0, 0⟩, 12⟩))) := by
  have s1 : allocate_net (RoutingArea.empty 100 0) ⟨AKind.net, 0, 2, 1, 10, 10⟩ none =
      some (⟨100, 0, [⟨⟨AKind.net, 0, 2, 1, 10, 10⟩, 10⟩], []⟩, 21) := by
    norm_num [allocate_net, get_offset, get_ceiling_space, x_overlapped_allocations,
      build_y_intervaltree, ceilingLoop, y_max_space_min, RoutingArea.empty,
      Alloc.y_max_with_space, Alloc.y_min, Alloc.y_max, Alloc.up, Alloc.lo, max_def, min_def,
      List.filterMap_cons, List.filter_cons, List.foldl_cons]
  have s2 : allocate_net (⟨100, 0, [⟨⟨AKind.net, 0, 2, 1, 10, 10⟩, 10⟩], []⟩ : RoutingArea)
      ⟨AKind.net, 3, 5, 20, 0, 0⟩ none =
      some (⟨100, 0, [⟨⟨AKind.net, 0, 2, 1, 10, 10⟩, 10⟩,
        ⟨⟨AKind.net, 3, 5, 20, 0, 0⟩, 0⟩], []⟩, 20) := by
    norm_num [allocate_net, get_offset, get_ceiling_space, x_overlapped_allocations,
      build_y_intervaltree, ceilingLoop, y_max_space_min, RoutingArea.empty,
      Alloc.y_max_with_space, Alloc.y_min, Alloc.y_max, Alloc.up, Alloc.lo, max_def, min_def,
      List.filterMap_cons, List.filter_cons, List.foldl_cons]
  have s3 : allocate_net (⟨100, 0, [⟨⟨AKind.net, 0, 2, 1, 10, 10⟩, 10⟩,
        ⟨⟨AKind.net, 3, 5, 20, 0, 0⟩, 0⟩], []⟩ : RoutingArea)
      ⟨AKind.net, 3, 5, 1/2, 0, 0⟩ none =
      some (⟨100, 0, [⟨⟨AKind.net, 0, 2, 1, 10, 10⟩, 10⟩,
        ⟨⟨AKind.net, 3, 5, 20, 0, 0⟩, 0⟩, ⟨⟨AKind.net, 3, 5, 1/2, 0, 0⟩, 20⟩], []⟩, 41/2) := by
    norm_num [allocate_net, get_offset, get_ceiling_space, x_overlapped_allocations,
      build_y_intervaltree, ceilingLoop, y_max_space_min, RoutingArea.empty,
      Alloc.y_max_with_space, Alloc.y_min, Alloc.y_max, Alloc.up, Alloc.lo, max_def, min_def,
      List.filterMap_cons, List.filter_cons, List.foldl_cons]
  have s4 : allocate_net (⟨100, 0, [⟨⟨AKind.net, 0, 2, 1, 10, 10⟩, 10⟩,
        ⟨⟨AKind.net, 3, 5, 20, 0, 0⟩, 0⟩, ⟨⟨AKind.net, 3, 5, 1/2, 0, 0⟩, 20⟩], []⟩ : RoutingArea)
      ⟨AKind.net, 0, 5, 1, 10, 10⟩ none =
      some (⟨100, 0, [⟨⟨AKind.net, 0, 2, 1, 10, 10⟩, 10⟩,
        ⟨⟨AKind.net, 3, 5, 20, 0, 0⟩, 0⟩, ⟨⟨AKind.net, 3, 5, 1/2, 0, 0⟩, 20⟩,
        ⟨⟨AKind.net, 0, 5, 1, 10, 10⟩, 21⟩], []⟩, 32) := by
    norm_num [allocate_net, get_offset, get_ceiling_space, x_overlapped_allocations,
      build_y_intervaltree, ceilingLoop, y_max_space_min, RoutingArea.empty,
      Alloc.y_max_with_space, Alloc.y_min, Alloc.y_max, Alloc.up, Alloc.lo, max_def, min_def,
      List.filterMap_cons, List.filter_cons, List.foldl_cons]
  have s5 : allocate_net (⟨100, 0, [⟨⟨AKind.net, 0, 2, 1, 10, 10⟩, 10⟩,
        ⟨⟨AKind.net, 3, 5, 20, 0, 0⟩, 0⟩, ⟨⟨AKind.net, 3, 5, 1/2, 0, 0⟩, 20⟩,
        ⟨⟨AKind.net, 0, 5, 1, 10, 10⟩, 21⟩], []⟩ : RoutingArea)
      ⟨AKind.net, 6, 8, 1, 10, 10⟩ none =
      some (⟨100, 0, [⟨⟨AKind.net, 0, 2, 1, 10, 10⟩, 10⟩,
        ⟨⟨AKind.net, 3, 5, 20, 0, 0⟩, 0⟩, ⟨⟨AKind.net, 3, 5, 1/2, 0, 0⟩, 20⟩,
        ⟨⟨AKind.net, 0, 5, 1, 10, 10⟩, 21⟩, ⟨⟨AKind.net, 6, 8, 1, 10, 10⟩, 10⟩], []⟩, 21) := by
    norm_num [allocate_net, get_offset, get_ceiling_space, x_overlapped_allocations,
      build_y_intervaltree, ceilingLoop, y_max_space_min, RoutingArea.empty,
      Alloc.y_max_with_space, Alloc.y_min, Alloc.y_max, Alloc.up, Alloc.lo, max_def, min_def,
      List.filterMap_cons, List.filter_cons, List.foldl_cons]
  have s6 : allocate_blockage (⟨100, 0, [⟨⟨AKind.net, 0, 2, 1, 10, 10⟩, 10⟩,
        ⟨⟨AKind.net, 3, 5, 20, 0, 0⟩, 0⟩, ⟨⟨AKind.net, 3, 5, 1/2, 0, 0⟩, 20⟩,
        ⟨⟨AKind.net, 0, 5, 1, 10, 10⟩, 21⟩, ⟨⟨AKind.net, 6, 8, 1, 10, 10⟩, 10⟩], []⟩ : RoutingArea)
      ⟨6, 8, 12, 13⟩ = (c1Final, some 13) := by
    norm_num [allocate_blockage, x_overlapped_allocations, build_y_intervaltree,
      BlockageE.toItem, c1Final, Alloc.y_max_with_space, Alloc.y_min, Alloc.y_max,
      Alloc.up, Alloc.lo, List.any_cons, List.filter_cons]
  refine ⟨?_, ⟨?_, ?_, ?_, ?_, ?_⟩, ?_, ?_, ?_, ?_, ?_⟩
  · simp only [c1Chain, s1, Option.some_bind, s2, s3, s4, s5, s6]
  · simp [c1Final]
  · simp [c1Final]
  · norm_num [xOv]
  · norm_num [Alloc.y_max, Alloc.y_min]
  · norm_num [Alloc.y_max, Alloc.y_min, Alloc.up, Alloc.lo, max_def]
  · simp [c1Final]
  · simp [c1Final]
  · norm_num [xOv]
  · norm_num [Alloc.y_max, Alloc.y_min]
  · norm_num [Alloc.y_max, Alloc.y_min, Alloc.up, Alloc.lo, max_def]

/-- C1 (amended): in every routing-area state reachable by successful
`allocate` calls on well-formed nets, shields and blockages (to which all
container allocations decompose), any two x-overlapping allocations `a`
below `b` with `b` not a blockage satisfy `b.y_min - a.y_max ≥
a.upper_space`; the originally claimed bound `max(a.upper_space,
b.lower_space)` does not hold (kernel spacing is only enforced against the
top of the stack), and for a blockage `b` no spacing at all is enforced. -/
theorem C1_amended {A : RoutingArea} (hA : Reachable A)
    {a b : Alloc} (ha : a ∈ A.allocs) (hb : b ∈ A.allocs) (hx : xOv a b)
    (hord : a.y_max ≤ b.y_min) (hnb : b.item.kind ≠ AKind.blockage) :
    b.y_min - a.y_max ≥ a.up := by
  have := (inv_of_reachable hA).2 a ha b hb hx hord hnb
  linarith

/-- Witness for C1 (amended): two nets of width 1 and space 1 stacked by two
successful `allocate` calls in an empty area of width 10 land at offsets 1
and 3, and the theorem yields the gap bound `3 - 2 ≥ 1`. -/
theorem C1_amended_witness :
    Alloc.y_min ⟨⟨AKind.net, 0, 2, 1, 1, 1⟩, 3⟩ -
      Alloc.y_max ⟨⟨AKind.net, 0, 2, 1, 1, 1⟩, 1⟩ ≥
      Alloc.up ⟨⟨AKind.net, 0, 2, 1, 1, 1⟩, 1⟩ := by
  have h1 : allocate_net (RoutingArea.empty 10 0) ⟨AKind.net, 0, 2, 1, 1, 1⟩ none =
      some (⟨10, 0, [⟨⟨AKind.net, 0, 2, 1, 1, 1⟩, 1⟩], []⟩, 3) := by
    norm_num [allocate_net, get_offset, get_ceiling_space, x_overlapped_allocations,
      build_y_intervaltree, ceilingLoop, y_max_space_min, RoutingArea.empty,
      Alloc.y_max_with_space, Alloc.y_min, Alloc.y_max, Alloc.up, Alloc.lo, max_def, min_def,
      List.filterMap_cons, List.filter_cons, List.foldl_cons]
  have h2 : allocate_net (⟨10, 0, [⟨⟨AKind.net, 0, 2, 1, 1, 1⟩, 1⟩], []⟩ : RoutingArea)
      ⟨AKind.net, 0, 2, 1, 1, 1⟩ none =
      some (⟨10, 0, [⟨⟨AKind.net, 0, 2, 1, 1, 1⟩, 1⟩,
        ⟨⟨AKind.net, 0, 2, 1, 1, 1⟩, 3⟩], []⟩, 5) := by
    norm_num [allocate_net, get_offset, get_ceiling_space, x_overlapped_allocations,
      build_y_intervaltree, ceilingLoop, y_max_space_min, RoutingArea.empty,
      Alloc.y_max_with_space, Alloc.y_min, Alloc.y_max, Alloc.up, Alloc.lo, max_def, min_def,
      List.filterMap_cons, List.filter_cons, List.foldl_cons]
  have hwf : wfItem ⟨AKind.net, 0, 2, 1, 1, 1⟩ :=
    ⟨by norm_num, by norm_num, by norm_num, by norm_num, by decide⟩
  exact C1_amended
    (Reachable.net (Reachable.net (Reachable.init 10 0) hwf h1) hwf h2)
    (by simp) (by simp) (by norm_num [xOv]) (by norm_num [Alloc.y_max, Alloc.y_min])
    (by decide)

/-! ## C10: blockage failure is not atomic -/

/-- C10: when `RoutingArea.allocate` is given a blockage whose rectangle
collides with an existing allocation over its x-interval, the call fails,
but the returned state already carries the blockage's `y_min` and `y_max`
appended to `init_ceilings`, with the allocation set unchanged: the failed
call has mutated the area. -/
theorem C10_blockage_failure_mutates {A : RoutingArea} {b : BlockageE}
    (hcol : ((build_y_intervaltree (x_overlapped_allocations A b.xlo b.xhi) false).any
      (fun iv => b.ylo < b.yhi ∧ iv.lo < b.yhi ∧ b.ylo < iv.hi)) = true) :
    allocate_blockage A b =
      ({ A with init_ceilings := A.init_ceilings ++ [b.ylo, b.yhi] }, none) := by
  unfold allocate_blockage
  rw [if_pos hcol]

/-- Witness for C10: a blockage at `y ∈ [0, 1)` over `x ∈ [0, 2)` collides
with a net allocation occupying the same rectangle; the failed call returns
the area with `[0, 1]` appended to `init_ceilings`. -/
theorem C10_witness :
    allocate_blockage ⟨10, 0, [⟨⟨AKind.net, 0, 2, 1, 0, 0⟩, 0⟩], []⟩ ⟨0, 2, 0, 1⟩ =
      (⟨10, 0, [⟨⟨AKind.net, 0, 2, 1, 0, 0⟩, 0⟩], [0, 1]⟩, none) :=
  C10_blockage_failure_mutates (by
    norm_num [x_overlapped_allocations, build_y_intervaltree, Alloc.y_min, Alloc.y_max,
      Alloc.up, Alloc.lo, List.any_cons, List.filter_cons])

/-! ## C3: characterisation of `get_ceiling_space` -/

/-- The `get_ceiling_space` loop fails exactly when it meets an `ABOVE`
space or a non-space interval not starting at the ceiling. -/
theorem ceilingLoop_none_iff {c : ℚ} {l : List YIv} {acc : ℚ} :
    ceilingLoop c l acc = none ↔
      ∃ iv ∈ l, iv.data = YData.space SpaceTypeE.ABOVE ∨
        ((∃ a, iv.data = YData.alloc a) ∧ iv.lo ≠ c) := by
  induction l generalizing acc with
  | nil => simp [ceilingLoop]
  | cons iv rest ih =>
    simp only [ceilingLoop]
    rcases hd : iv.data with a | t
    · by_cases hlo : iv.lo = c
      · rw [if_pos hlo, ih]
        constructor
        · rintro ⟨jv, hjv, hbad⟩
          exact ⟨jv, List.mem_cons_of_mem iv hjv, hbad⟩
        · rintro ⟨jv, hjv, hbad⟩
          rcases List.mem_cons.mp hjv with rfl | hjm
          · rcases hbad with hsp | ⟨-, hne⟩
            · rw [hd] at hsp; exact absurd hsp (by simp)
            · exact absurd hlo hne
          · exact ⟨jv, hjm, hbad⟩
      · simp only [if_neg hlo, true_iff]
        exact ⟨iv, List.mem_cons_self iv rest, Or.inr ⟨⟨a, hd⟩, hlo⟩⟩
    · cases t with
      | ABOVE =>
        simp only [true_iff]
        exact ⟨iv, List.mem_cons_self iv rest, Or.inl hd⟩
      | BELOW =>
        rw [ih]
        constructor
        · rintro ⟨jv, hjv, hbad⟩
          exact ⟨jv, List.mem_cons_of_mem iv hjv, hbad⟩
        · rintro ⟨jv, hjv, hbad⟩
          rcases List.mem_cons.mp hjv with rfl | hjm
          · rcases hbad with hsp | ⟨⟨a, hal⟩, -⟩
            · rw [hd] at hsp
              simp only [YData.space.injEq] at hsp
              exact absurd hsp (by simp)
            · rw [hd] at hal; exact absurd hal (by simp)
          · exact ⟨jv, hjm, hbad⟩

/-- On success the `get_ceiling_space` loop computes the running maximum of
`ceiling - begin` over the walked intervals. -/
theorem ceilingLoop_some_val {c : ℚ} {l : List YIv} {acc r : ℚ}
    (h : ceilingLoop c l acc = some r) :
    r = l.foldl (fun m iv => max m (c - iv.lo)) acc := by
  induction l generalizing acc with
  | nil => simp only [ceilingLoop, Option.some.injEq] at h; simp [h.symm]
  | cons iv rest ih =>
    simp only [ceilingLoop] at h
    rcases hd : iv.data with a | t
    · rw [hd] at h
      by_cases hlo : iv.lo = c
      · rw [if_pos hlo] at h
        rw [List.foldl_cons]
        exact ih h
      · rw [if_neg hlo] at h; exact absurd h (by simp)
    · rw [hd] at h
      cases t with
      | ABOVE => exact absurd h (by simp)
      | BELOW =>
        rw [List.foldl_cons]
        exact ih h

/-- C3: `get_ceiling_space(ceiling, x_iv)` returns `None` if and only if,
among the y-intervals (built with spaces included over the allocations
x-overlapping `x_iv`) that contain the point `ceiling`, some interval is an
`ABOVE` space or some non-space allocation interval has `begin ≠ ceiling`;
otherwise it returns the maximum of `ceiling - iv.begin` over those
containing intervals (`0` when there are none), a non-negative value. -/
theorem C3_get_ceiling_space (A : RoutingArea) (c xlo xhi : ℚ) :
    (get_ceiling_space A c xlo xhi = none ↔
      ∃ iv ∈ (build_y_intervaltree (x_overlapped_allocations A xlo xhi) true).filter
          (fun iv => iv.lo ≤ c ∧ c < iv.hi),
        iv.data = YData.space SpaceTypeE.ABOVE ∨
          ((∃ a, iv.data = YData.alloc a) ∧ iv.lo ≠ c)) ∧
    (∀ r, get_ceiling_space A c xlo xhi = some r →
      r = ((build_y_intervaltree (x_overlapped_allocations A xlo xhi) true).filter
          (fun iv => iv.lo ≤ c ∧ c < iv.hi)).foldl (fun m iv => max m (c - iv.lo)) 0 ∧
        0 ≤ r) := by
  refine ⟨ceilingLoop_none_iff, fun r hr => ⟨ceilingLoop_some_val hr, ceilingLoop_acc_le hr⟩⟩

/-- Witness for C3: an area holding one net of width 1 and space 1 at offset
1 has the `ABOVE` space `[2, 3)`; ceiling `5/2` lies strictly inside it, so
`get_ceiling_space` reports the ceiling invalid. -/
theorem C3_witness :
    get_ceiling_space ⟨10, 0, [⟨⟨AKind.net, 0, 2, 1, 1, 1⟩, 1⟩], []⟩ (5/2) 0 2 = none := by
  refine (C3_get_ceiling_space ⟨10, 0, [⟨⟨AKind.net, 0, 2, 1, 1, 1⟩, 1⟩], []⟩
      (5/2) 0 2).1.mpr ⟨⟨2, 3, YData.space SpaceTypeE.ABOVE⟩, ?_, Or.inl rfl⟩
  norm_num [x_overlapped_allocations, build_y_intervaltree, List.filter_cons,
    Alloc.y_min, Alloc.y_max, Alloc.y_max_with_space, Alloc.up, Alloc.lo]

/-! ## C2: characterisation of `get_offset` -/

/-- C2: for every item and ceiling, a successful `get_offset(item, ceiling)`
returns `offset = y_max - space_min + max(space_min, item.lower_space)`,
where `(y_max, space_min)` is `y_max_space_min` over the allocations
x-overlapping the item whose y-intervals overlap `[0, ceiling)` and do not
contain the point `ceiling`; it returns `None` exactly when the ceiling is
invalid or when `offset + item.width + max(item.upper_space, ceiling_space)`
exceeds the ceiling; and on an area with no x-overlapping allocations the
returned offset equals `item.lower_space`. -/
theorem C2_get_offset (A : RoutingArea) (it : Item) (c : ℚ) (hlo : 0 ≤ it.lo) :
    (∀ off, get_offset A it (some c) = some off →
      off = (y_max_space_min (belowFilter A it c)).1
            - (y_max_space_min (belowFilter A it c)).2
            + max (y_max_space_min (belowFilter A it c)).2 it.lo) ∧
    (get_offset A it (some c) = none ↔
      get_ceiling_space A c it.xlo it.xhi = none ∨
        ∃ cs, get_ceiling_space A c it.xlo it.xhi = some cs ∧
          offsetFormula A it c + it.w + max it.up cs > c) ∧
    (x_overlapped_allocations A it.xlo it.xhi = [] →
      ∀ off, get_offset A it (some c) = some off → off = it.lo) := by
  have hfirst : ∀ off, get_offset A it (some c) = some off →
      off = offsetFormula A it c := by
    intro off hoff
    obtain ⟨cs, -, hform, -⟩ := get_offset_some hoff
    exact hform
  refine ⟨fun off hoff => hfirst off hoff, ?_, ?_⟩
  · rw [get_offset_eq]
    simp only [Option.getD_some]
    cases hcs : get_ceiling_space A c it.xlo it.xhi with
    | none => simp
    | some cs =>
      by_cases hfit : offsetFormula A it c + it.w + max it.up cs > c
      · simp [hfit]
      · simp [hfit]
  · intro hx off hoff
    have hb : belowFilter A it c = [] := by
      unfold belowFilter
      rw [hx]
      rfl
    have h1 := hfirst off hoff
    rw [h1]
    unfold offsetFormula
    rw [hb, y_max_space_min_nil]
    show (0 : ℚ) - 0 + max 0 it.lo = it.lo
    rw [max_eq_right hlo]
    ring

/-- Witness for C2: in an empty area of width 10, a net of width 1 and space
1 over `x ∈ [0, 2)` gets offset 1, which by the empty-area clause equals its
`lower_space`. -/
theorem C2_witness : (1 : ℚ) = (⟨AKind.net, 0, 2, 1, 1, 1⟩ : Item).lo := by
  have hoff : get_offset (RoutingArea.empty 10 0) ⟨AKind.net, 0, 2, 1, 1, 1⟩ (some 10) =
      some 1 := by
    norm_num [get_offset, get_ceiling_space, x_overlapped_allocations,
      build_y_intervaltree, ceilingLoop, y_max_space_min, RoutingArea.empty,
      Alloc.y_max_with_space, Alloc.y_min, Alloc.y_max, Alloc.up, Alloc.lo, max_def, min_def,
      List.filterMap_cons, List.filter_cons, List.foldl_cons]
  exact (C2_get_offset (RoutingArea.empty 10 0) ⟨AKind.net, 0, 2, 1, 1, 1⟩ 10
    (by norm_num)).2.2 rfl 1 hoff

/-! ## Preprocessing: `divide_width` (src/preprocessing.py) -/

/-- Truncation toward zero, the semantics of Python's `Decimal.__floordiv__`
(`int(w // factor)`). -/
def ratTrunc (q : ℚ) : ℤ := if q < 0 then -⌊-q⌋ else ⌊q⌋

/-- `divide_width(w, factor)`: `quotient` copies of `factor` followed by the
remainder `w % factor` when it is nonzero (`Decimal` floor-division
truncates toward zero and `%` returns `w - factor * (w // factor)`). -/
def divide_width (w factor : ℚ) : List ℚ :=
  List.replicate (ratTrunc (w / factor)).toNat factor
    ++ (if w - factor * ratTrunc (w / factor) = 0 then []
        else [w - factor * ratTrunc (w / factor)])

theorem ratTrunc_of_nonneg {q : ℚ} (h : 0 ≤ q) : ratTrunc q = ⌊q⌋ := by
  unfold ratTrunc
  rw [if_neg (not_lt.mpr h)]

/-- C7: for positive `w` and `factor`, `divide_width(w, factor)` returns
`⌊w / factor⌋` copies of `factor` followed by the remainder when nonzero;
the returned values sum to `w`, every value is at most `factor`, and the
list has the minimum possible number of parts among lists of values at most
`factor` summing to `w`. -/
theorem C7_divide_width (w factor : ℚ) (hw : 0 < w) (hf : 0 < factor) :
    divide_width w factor =
      List.replicate (⌊w / factor⌋).toNat factor
        ++ (if w - factor * ⌊w / factor⌋ = 0 then [] else [w - factor * ⌊w / factor⌋]) ∧
    (divide_width w factor).sum = w ∧
    (∀ x ∈ divide_width w factor, x ≤ factor) ∧
    (∀ l : List ℚ, (∀ x ∈ l, x ≤ factor) → l.sum = w →
      (divide_width w factor).length ≤ l.length) := by
  have hq0 : (0 : ℚ) ≤ w / factor := le_of_lt (div_pos hw hf)
  have htr : ratTrunc (w / factor) = ⌊w / factor⌋ := ratTrunc_of_nonneg hq0
  set q : ℤ := ⌊w / factor⌋ with hq
  have hqnn : 0 ≤ q := Int.floor_nonneg.mpr hq0
  have hqcast : ((q.toNat : ℤ) : ℚ) = (q : ℚ) := by
    rw [Int.toNat_of_nonneg hqnn]
  -- the remainder in terms of the fractional part
  have hrem : w - factor * q = factor * Int.fract (w / factor) := by
    have : Int.fract (w / factor) = w / factor - q := by rw [Int.fract, hq]
    rw [this]
    field_simp
  have hfr0 : 0 ≤ Int.fract (w / factor) := Int.fract_nonneg _
  have hfr1 : Int.fract (w / factor) < 1 := Int.fract_lt_one _
  have hrem0 : 0 ≤ w - factor * q := by
    rw [hrem]; positivity
  have hremf : w - factor * q < factor := by
    rw [hrem]
    calc factor * Int.fract (w / factor) < factor * 1 := by
          exact mul_lt_mul_of_pos_left hfr1 hf
      _ = factor := mul_one factor
  have hsumrep : (List.replicate q.toNat factor).sum = (q : ℚ) * factor := by
    rw [List.sum_replicate, nsmul_eq_mul]
    have hcast : ((q.toNat : ℚ)) = (q : ℚ) := by exact_mod_cast Int.toNat_of_nonneg hqnn
    rw [hcast]
  have hlen : (divide_width w factor).length =
      q.toNat + (if w - factor * q = 0 then 0 else 1) := by
    unfold divide_width
    rw [htr]
    by_cases hr : w - factor * q = 0
    · rw [if_pos hr, if_pos hr]
      simp
    · rw [if_neg hr, if_neg hr]
      simp
  refine ⟨by unfold divide_width; rw [htr], ?_, ?_, ?_⟩
  · unfold divide_width
    rw [htr]
    by_cases hr : w - factor * q = 0
    · rw [if_pos hr]
      rw [List.append_nil, hsumrep]
      linarith
    · rw [if_neg hr]
      rw [List.sum_append, hsumrep]
      simp only [List.sum_cons, List.sum_nil]
      ring
  · intro x hx
    unfold divide_width at hx
    rw [htr] at hx
    rcases List.mem_append.mp hx with hx | hx
    · rw [List.eq_of_mem_replicate hx]
    · by_cases hr : w - factor * q = 0
      · rw [if_pos hr] at hx
        exact absurd hx (List.not_mem_nil x)
      · rw [if_neg hr] at hx
        have : x = w - factor * q := by simpa using hx
        rw [this]
        linarith
  · intro l hl hsum
    have hlensum : l.sum ≤ (l.length : ℚ) * factor := by
      clear hsum
      induction l with
      | nil => simp
      | cons x rest ih =>
        have hx := hl x (List.mem_cons_self x rest)
        have hrest := ih (fun z hz => hl z (List.mem_cons_of_mem x hz))
        simp only [List.sum_cons, List.length_cons]
        push_cast
        linarith
    rw [hsum] at hlensum
    rw [hlen]
    by_cases hr : w - factor * q = 0
    · rw [if_pos hr]
      simp only [Nat.add_zero]
      -- w = q * factor ≤ len * factor gives q ≤ len
      have hqle : (q : ℚ) ≤ (l.length : ℚ) := by
        have hwq : w = (q : ℚ) * factor := by linarith
        rw [hwq] at hlensum
        exact le_of_mul_le_mul_right hlensum hf
      have : q ≤ (l.length : ℤ) := by exact_mod_cast hqle
      omega
    · rw [if_neg hr]
      -- q * factor < w ≤ len * factor gives q < len
      have hrpos : 0 < w - factor * q := lt_of_le_of_ne hrem0 (Ne.symm hr)
      have hqlt : (q : ℚ) < (l.length : ℚ) := by
        have h1 : (q : ℚ) * factor < w := by linarith
        have h2 : (q : ℚ) * factor < (l.length : ℚ) * factor := lt_of_lt_of_le h1 hlensum
        exact lt_of_mul_lt_mul_right h2 (le_of_lt hf)
      have : q < (l.length : ℤ) := by exact_mod_cast hqlt
      omega

/-- Witness for C7: with `w = 8`, `factor = 3` the returned widths sum to 8
and each is at most 3. -/
theorem C7_witness :
    (divide_width 8 3).sum = 8 ∧ ∀ x ∈ divide_width 8 3, x ≤ 3 := by
  obtain ⟨-, hsum, hle, -⟩ := C7_divide_width 8 3 (by norm_num) (by norm_num)
  exact ⟨hsum, hle⟩

/-! ## C4: the greedy bundle scheduler (`src/algorithms.py`) -/

/-- A bundle component as `greedy_allocate_bundles` uses it: its
`Allocatables` geometry (consumed by `allocatable`, `get_offset` and
`allocate`) together with the y-coordinates of its pins (consumed by
`vertical_wirelength`). -/
structure BComp where
  item : Item
  pinsY : List ℚ
  deriving DecidableEq, Repr

/-- `vertical_wirelength(y)`: summed vertical pin distance. -/
def BComp.vwl (c : BComp) (y : ℚ) : ℚ := (c.pinsY.map (fun py => |py - y|)).sum

/-- A `containers.Bundle`: group name and ordered components. -/
structure BundleC where
  name : String
  comps : List BComp
  deriving DecidableEq, Repr

/-- `len(bundle.pins)`: total pin count of the bundle. -/
def BundleC.pins (b : BundleC) : ℕ := (b.comps.map (fun c => c.pinsY.length)).sum

/-- `Bundle.vertical_wirelength_with_multi_y(heights)`. -/
def vwl_multi (b : BundleC) (hs : List ℚ) : ℚ :=
  ((hs.zip b.comps).map (fun p => p.2.vwl p.1)).sum

/-- Lines 53–57 of `greedy_allocate_bundles`: commit one component into an
area — query `get_offset`, `allocate` it, and push the offset and the
resulting `y_max_with_space` onto the area's `init_ceilings`. -/
def commitOne (g : RoutingArea) (c : BComp) : RoutingArea :=
  match get_offset g c.item none with
  | none => g
  | some off =>
    ⟨g.width, g.height, g.allocs ++ [⟨c.item, off⟩],
      g.init_ceilings ++ [off, off + c.item.w + c.item.up]⟩

/-- Commit a bundle's components into the consecutive areas starting at
index `i`. -/
def commitWindow : List RoutingArea → ℕ → List BComp → List RoutingArea
  | ras, _, [] => ras
  | ras, i, c :: rest =>
    match ras.get? i with
    | none => ras
    | some g => commitWindow (ras.set i (commitOne g c)) (i + 1) rest

/-- The per-window assignability check
(`zip(ras[i : i + len(b)], b)` with `g.allocatable(elm)`). -/
def assignable (ras : List RoutingArea) (i : ℕ) (cs : List BComp) : Bool :=
  (((ras.drop i).take cs.length).zip cs).all (fun p => allocatable p.1 p.2.item none)

/-- The number of candidate windows: `range(len(gap_heights) - len(b) + 1)`
(empty when the bundle needs more areas than exist). -/
def numWindows (gh : List ℚ) (k : ℕ) : ℕ := if gh.length < k then 0 else gh.length - k + 1

/-- The window wirelength `vertical_wirelength_with_multi_y(gap_heights[i : i + k])`. -/
def wVal (gh : List ℚ) (b : BundleC) (i : ℕ) : ℚ :=
  vwl_multi b ((gh.drop i).take b.comps.length)

/-- One iteration of the window-selection loop: `best_vwl` starts at
`Decimal(inf)` (modelled `none`) and `best_start_idx` at 0; a feasible
window with a strictly smaller wirelength replaces the incumbent. -/
def stepFun (ras : List RoutingArea) (gh : List ℚ) (b : BundleC) :
    Option ℚ × ℕ → ℕ → Option ℚ × ℕ := fun best i =>
  if assignable ras i b.comps then
    match best.1 with
    | none => (some (wVal gh b i), i)
    | some bv => if bv > wVal gh b i then (some (wVal gh b i), i) else best
  else best

/-- The window-selection loop of `greedy_allocate_bundles`. -/
def selectLoop (ras : List RoutingArea) (gh : List ℚ) (b : BundleC) : Option ℚ × ℕ :=
  (List.range (numWindows gh b.comps.length)).foldl (stepFun ras gh b) (none, 0)

/-- The body of the outer bundle loop: an infeasible bundle's name is
appended to the unallocatable list, a feasible one is committed at the
selected window. -/
def greedyStep (gh : List ℚ) (st : List RoutingArea × List String) (b : BundleC) :
    List RoutingArea × List String :=
  match selectLoop st.1 gh b with
  | (none, _) => (st.1, st.2 ++ [b.name])
  | (some _, i) => (commitWindow st.1 i b.comps, st.2)

/-- `sorted(bundles, key=lambda x: len(x.pins), reverse=True)`: a stable
descending sort on total pin count. -/
def sortBundles (bundles : List BundleC) : List BundleC :=
  bundles.mergeSort (fun a b => decide (b.pins ≤ a.pins))

/-- `greedy_allocate_bundles(bundles, ras)`: the mutated area list and the
unallocatable bundle names. -/
def greedy_allocate_bundles (bundles : List BundleC) (ras : List RoutingArea) :
    List RoutingArea × List String :=
  (sortBundles bundles).foldl (greedyStep (ras.map RoutingArea.height)) (ras, [])

/-- Window `i₀` is the committed window in the claim's sense: feasible,
of minimal wirelength among feasible windows, and the first one among the
minimisers. -/
def IsBestWindow (ras : List RoutingArea) (gh : List ℚ) (b : BundleC) (i₀ : ℕ) : Prop :=
  i₀ < numWindows gh b.comps.length ∧ assignable ras i₀ b.comps = true ∧
    (∀ j < numWindows gh b.comps.length, assignable ras j b.comps = true →
      wVal gh b i₀ ≤ wVal gh b j) ∧
    (∀ j < i₀, assignable ras j b.comps = true → wVal gh b i₀ < wVal gh b j)

/-- Invariant of the selection fold: `none` exactly on no feasible window so
far, and otherwise the incumbent is the first argmin of the wirelength over
the feasible windows seen so far. -/
theorem selectFold_spec (ras : List RoutingArea) (gh : List ℚ) (b : BundleC) (n : ℕ) :
    ((((List.range n).foldl (stepFun ras gh b) (none, 0)).1 = none) ↔
      ∀ i < n, assignable ras i b.comps = false) ∧
    (∀ bv bi, (List.range n).foldl (stepFun ras gh b) (none, 0) = (some bv, bi) →
      bi < n ∧ assignable ras bi b.comps = true ∧ bv = wVal gh b bi ∧
        (∀ j < n, assignable ras j b.comps = true → bv ≤ wVal gh b j) ∧
        (∀ j < bi, assignable ras j b.comps = true → bv < wVal gh b j)) := by
  induction n with
  | zero =>
    constructor
    · simp
    · intro bv bi h
      simp only [List.range_zero, List.foldl_nil, Prod.mk.injEq] at h
      exact absurd h.1 (by simp)
  | succ n ih =>
    rw [List.range_succ, List.foldl_append, List.foldl_cons, List.foldl_nil]
    rcases hst : (List.range n).foldl (stepFun ras gh b) (none, 0) with ⟨o, bi⟩
    rw [hst] at ih
    cases o with
    | none =>
      have hnone : ∀ i < n, assignable ras i b.comps = false := ih.1.mp rfl
      by_cases ha : assignable ras n b.comps = true
      · constructor
        · simp only [stepFun, if_pos ha]
          constructor
          · intro h; exact absurd h (by simp)
          · intro h; exact absurd (h n (Nat.lt_succ_self n)) (by simp [ha])
        · intro bv bi' h
          simp only [stepFun, if_pos ha, Option.some.injEq, Prod.mk.injEq] at h
          obtain ⟨rfl, rfl⟩ := h
          refine ⟨Nat.lt_succ_self n, ha, rfl, ?_, ?_⟩
          · intro j hj hja
            rcases Nat.lt_succ_iff_lt_or_eq.mp hj with hj | rfl
            · exact absurd hja (by simp [hnone j hj])
            · exact le_refl _
          · intro j hj hja
            exact absurd hja (by simp [hnone j hj])
      · have ha' : assignable ras n b.comps = false := by
          cases h : assignable ras n b.comps
          · rfl
          · exact absurd h ha
        constructor
        · simp only [stepFun, if_neg ha]
          constructor
          · intro _ i hi
            rcases Nat.lt_succ_iff_lt_or_eq.mp hi with hi | rfl
            · exact hnone i hi
            · exact ha'
          · intro _; trivial
        · intro bv bi' h
          simp only [stepFun, if_neg ha, Prod.mk.injEq] at h
          exact absurd h.1 (by simp)
    | some bv0 =>
      obtain ⟨hbi, hba, hbv, hmin, hfirst⟩ := ih.2 bv0 bi rfl
      by_cases ha : assignable ras n b.comps = true
      · by_cases hcmp : bv0 > wVal gh b n
        · constructor
          · simp only [stepFun, if_pos ha, if_pos hcmp]
            constructor
            · intro h; exact absurd h (by simp)
            · intro h; exact absurd (h n (Nat.lt_succ_self n)) (by simp [ha])
          · intro bv bi' h
            simp only [stepFun, if_pos ha, if_pos hcmp, Option.some.injEq,
              Prod.mk.injEq] at h
            obtain ⟨rfl, rfl⟩ := h
            refine ⟨Nat.lt_succ_self n, ha, rfl, ?_, ?_⟩
            · intro j hj hja
              rcases Nat.lt_succ_iff_lt_or_eq.mp hj with hj | rfl
              · have h1 := hmin j hj hja
                linarith
              · exact le_refl _
            · intro j hj hja
              have h1 := hmin j hj hja
              linarith
        · constructor
          · simp only [stepFun, if_pos ha, if_neg hcmp]
            constructor
            · intro h; exact absurd h (by simp)
            · intro h; exact absurd (h bi (Nat.lt_succ_of_lt hbi)) (by simp [hba])
          · intro bv bi' h
            simp only [stepFun, if_pos ha, if_neg hcmp, Option.some.injEq,
              Prod.mk.injEq] at h
            obtain ⟨rfl, rfl⟩ := h
            refine ⟨Nat.lt_succ_of_lt hbi, hba, hbv, ?_, hfirst⟩
            intro j hj hja
            rcases Nat.lt_succ_iff_lt_or_eq.mp hj with hj | rfl
            · exact hmin j hj hja
            · exact not_lt.mp hcmp
      · constructor
        · simp only [stepFun, if_neg ha]
          constructor
          · intro h; exact absurd h (by simp)
          · intro h; exact absurd (h bi (Nat.lt_succ_of_lt hbi)) (by simp [hba])
        · intro bv bi' h
          simp only [stepFun, if_neg ha, Option.some.injEq, Prod.mk.injEq] at h
          obtain ⟨rfl, rfl⟩ := h
          refine ⟨Nat.lt_succ_of_lt hbi, hba, hbv, ?_, hfirst⟩
          intro j hj hja
          rcases Nat.lt_succ_iff_lt_or_eq.mp hj with hj | rfl
          · exact hmin j hj hja
          · exact absurd hja (by simp [ha])

/-- C4: `greedy_allocate_bundles` folds over the bundles sorted stably by
descending total pin count; for each bundle it either commits the
first-on-ties minimal-wirelength feasible window of consecutive areas, or —
when no window is feasible — leaves the bundle unplaced and appends its name
to the returned unallocatable list. -/
theorem C4_greedy_allocate_bundles (bundles : List BundleC) (ras : List RoutingArea) :
    greedy_allocate_bundles bundles ras =
      (sortBundles bundles).foldl (greedyStep (ras.map RoutingArea.height)) (ras, []) ∧
    List.Pairwise (fun a b : BundleC => b.pins ≤ a.pins) (sortBundles bundles) ∧
    (sortBundles bundles).Perm bundles ∧
    ∀ (gh : List ℚ) (st : List RoutingArea × List String) (b : BundleC),
      ((∀ i < numWindows gh b.comps.length, assignable st.1 i b.comps = false) →
        greedyStep gh st b = (st.1, st.2 ++ [b.name])) ∧
      (∀ i₀, IsBestWindow st.1 gh b i₀ →
        greedyStep gh st b = (commitWindow st.1 i₀ b.comps, st.2)) := by
  have htr : ∀ a b c : BundleC, decide (b.pins ≤ a.pins) = true →
      decide (c.pins ≤ b.pins) = true → decide (c.pins ≤ a.pins) = true := by
    intro a b c hab hbc
    simp only [decide_eq_true_eq] at hab hbc ⊢
    omega
  have htot : ∀ a b : BundleC,
      (decide (b.pins ≤ a.pins) || decide (a.pins ≤ b.pins)) = true := by
    intro a b
    simp only [Bool.or_eq_true, decide_eq_true_eq]
    omega
  refine ⟨rfl, ?_, List.mergeSort_perm bundles _, ?_⟩
  · exact (List.sorted_mergeSort htr htot bundles).imp (fun h => of_decide_eq_true h)
  · intro gh st b
    constructor
    · intro hnone
      unfold greedyStep
      rcases hsel : selectLoop st.1 gh b with ⟨o, bi⟩
      unfold selectLoop at hsel
      cases o with
      | none => rfl
      | some bv =>
        exfalso
        obtain ⟨hbin, hba, -, -, -⟩ :=
          (selectFold_spec st.1 gh b (numWindows gh b.comps.length)).2 bv bi hsel
        exact absurd hba (by simp [hnone bi hbin])
    · intro i₀ hbest
      obtain ⟨hi₀, ha₀, hminb, hfirstb⟩ := hbest
      unfold greedyStep
      rcases hsel : selectLoop st.1 gh b with ⟨o, bi⟩
      unfold selectLoop at hsel
      cases o with
      | none =>
        exfalso
        have hall : ∀ i < numWindows gh b.comps.length, assignable st.1 i b.comps = false :=
          (selectFold_spec st.1 gh b (numWindows gh b.comps.length)).1.mp (by rw [hsel])
        exact absurd ha₀ (by simp [hall i₀ hi₀])
      | some bv =>
        obtain ⟨hbin, hba, hbv, hmin, hfirst⟩ :=
          (selectFold_spec st.1 gh b (numWindows gh b.comps.length)).2 bv bi hsel
        have hbieq : bi = i₀ := by
          rcases lt_trichotomy bi i₀ with h | h | h
          · have h1 := hfirstb bi h hba
            have h2 := hmin i₀ hi₀ ha₀
            rw [hbv] at h2
            linarith
          · exact h
          · have h1 := hfirst i₀ h ha₀
            have h2 := hminb bi hbin hba
            rw [hbv] at h1
            linarith
        rw [hbieq]

/-- Witness for C4: a single one-component bundle over a single empty area
of width 10; window 0 is feasible and trivially of minimal wirelength, so
the step commits the bundle at window 0 and reports nothing unallocatable. -/
theorem C4_witness :
    greedyStep [0] ([⟨10, 0, [], []⟩], []) ⟨"b", [⟨⟨AKind.net, 0, 2, 1, 1, 1⟩, []⟩]⟩ =
      (commitWindow [⟨10, 0, [], []⟩] 0 [⟨⟨AKind.net, 0, 2, 1, 1, 1⟩, []⟩], []) := by
  have halloc : allocatable (⟨10, 0, [], []⟩ : RoutingArea) ⟨AKind.net, 0, 2, 1, 1, 1⟩ none
      = true := by
    norm_num [allocatable, get_offset, get_ceiling_space, x_overlapped_allocations,
      build_y_intervaltree, ceilingLoop, y_max_space_min,
      Alloc.y_max_with_space, Alloc.y_min, Alloc.y_max, Alloc.up, Alloc.lo, max_def, min_def,
      List.filterMap_cons, List.filter_cons, List.foldl_cons]
  refine ((C4_greedy_allocate_bundles [] []).2.2.2 [0] ([⟨10, 0, [], []⟩], [])
    ⟨"b", [⟨⟨AKind.net, 0, 2, 1, 1, 1⟩, []⟩]⟩).2 0 ⟨?_, ?_, ?_, ?_⟩
  · norm_num [numWindows]
  · simp [assignable, halloc]
  · intro j hj hja
    have : j = 0 := by
      simp only [numWindows] at hj
      norm_num at hj
      omega
    rw [this]
  · intro j hj hja
    exact absurd hj (Nat.not_lt_zero j)

/-! ## C5: `max_density_zones` (src/algorithms.py) -/

/-- The geometry `max_density_zones` reads from an OID: x-interval and
width.  The input OIDs are distinct objects in the source (so
`list.remove` removes exactly the finished one); distinct records model
that. -/
structure OIDGeom where
  xlo : ℚ
  xhi : ℚ
  w : ℚ
  deriving DecidableEq, Repr

/-- The sweep-line event commands. -/
inductive EvCmd where
  | add
  | remove
  deriving DecidableEq, Repr

/-- `diff_density[k]`: the (oid, command) pairs registered at coordinate
`k`, in oid order with `add` before `remove`. -/
def eventsAt (oids : List OIDGeom) (k : ℚ) : List (OIDGeom × EvCmd) :=
  oids.flatMap (fun o =>
    (if o.xlo = k then [(o, EvCmd.add)] else [])
      ++ (if o.xhi = k then [(o, EvCmd.remove)] else []))

/-- The distinct event coordinates in ascending order
(`sorted(diff_density.items(), key=...)`). -/
def eventKeys (oids : List OIDGeom) : List ℚ :=
  List.insertionSort (· ≤ ·) ((oids.flatMap (fun o => [o.xlo, o.xhi])).dedup)

/-- The sweep state: active nets, running maximum density, open zone start,
collected zones. -/
structure MDZState where
  conflict : List OIDGeom
  maxd : ℚ
  startx : Option ℚ
  zones : List (ℚ × ℚ)
  deriving DecidableEq, Repr

/-- One iteration of the sweep over a coordinate `k`: apply the adds and
removes, then — skipping the rest when the active set became empty — track
the running maximum on a trailing `add` and close the open zone on a
trailing `remove`. -/
def mdzStep (oids : List OIDGeom) (st : MDZState) (k : ℚ) : MDZState :=
  let nl := eventsAt oids k
  let conflict := nl.foldl (fun cn t =>
    match t.2 with
    | EvCmd.add => cn ++ [t.1]
    | EvCmd.remove => cn.erase t.1) st.conflict
  if conflict = [] then ⟨conflict, st.maxd, st.startx, st.zones⟩
  else
    let density := (conflict.map OIDGeom.w).sum
    match (nl.map Prod.snd).getLast? with
    | some EvCmd.add =>
      if st.maxd < density then ⟨conflict, density, some k, []⟩
      else if st.maxd = density then ⟨conflict, st.maxd, some k, st.zones⟩
      else ⟨conflict, st.maxd, st.startx, st.zones⟩
    | _ =>
      match st.startx with
      | some sx => ⟨conflict, st.maxd, none, st.zones ++ [(sx, k)]⟩
      | none => ⟨conflict, st.maxd, none, st.zones⟩

/-- `max_density_zones(oids)`: the final maximum density and the collected
zones. -/
def max_density_zones (oids : List OIDGeom) : ℚ × List (ℚ × ℚ) :=
  let fin := (eventKeys oids).foldl (mdzStep oids) ⟨[], 0, none, []⟩
  (fin.maxd, fin.zones)

/-- Modelled from the spec: the naïve brute force the claim compares
against — the density at point `p` is the summed width of the OIDs whose
x-interval contains `p`. -/
def bruteDensity (oids : List OIDGeom) (p : ℚ) : ℚ :=
  ((oids.filter (fun o => o.xlo ≤ p ∧ p < o.xhi)).map OIDGeom.w).sum

/-- C5, failing input: a single OID on `[0, 1)` with width 1.  The sweep
records maximum density 1 but, because the final `remove` empties the
active set and the loop `continue`s before closing the open zone, it
returns an empty zone list.  The brute force finds density 1 = max at the
interval midpoint `1/2`, which lies in no returned zone, so the claimed
agreement fails. -/
theorem C5_max_density_zones_bug :
    max_density_zones [⟨0, 1, 1⟩] = (1, []) ∧
    bruteDensity [⟨0, 1, 1⟩] (1/2) = 1 ∧
    bruteDensity [⟨0, 1, 1⟩] (1/2) = (max_density_zones [⟨0, 1, 1⟩]).1 ∧
    (max_density_zones [⟨0, 1, 1⟩]).2 = [] := by
  have hkeys : eventKeys [⟨0, 1, 1⟩] = [0, 1] := by
    norm_num [eventKeys, List.insertionSort, List.orderedInsert, List.dedup_cons_of_not_mem,
      List.dedup_nil]
  have hev0 : eventsAt [⟨0, 1, 1⟩] 0 = [(⟨0, 1, 1⟩, EvCmd.add)] := by
    norm_num [eventsAt]
  have hev1 : eventsAt [⟨0, 1, 1⟩] 1 = [(⟨0, 1, 1⟩, EvCmd.remove)] := by
    norm_num [eventsAt]
  have hmdz : max_density_zones [⟨0, 1, 1⟩] = (1, []) := by
    unfold max_density_zones
    rw [hkeys]
    simp only [List.foldl_cons, List.foldl_nil]
    rw [show mdzStep [⟨0, 1, 1⟩] ⟨[], 0, none, []⟩ 0 = ⟨[⟨0, 1, 1⟩], 1, some 0, []⟩ by
      unfold mdzStep
      rw [hev0]
      norm_num]
    rw [show mdzStep [⟨0, 1, 1⟩] ⟨[⟨0, 1, 1⟩], 1, some 0, []⟩ 1 = ⟨[], 1, some 0, []⟩ by
      unfold mdzStep
      rw [hev1]
      norm_num [List.erase_cons]]
  refine ⟨hmdz, by norm_num [bruteDensity], ?_, by rw [hmdz]⟩
  rw [hmdz]
  norm_num [bruteDensity]

/-! ## Entities: `Net.__init__` (gcr/entities.py) -/

/-- `entities.Pin`. -/
structure Pin where
  x : ℚ
  y : ℚ
  deriving DecidableEq, Repr

/-- A constructed `entities.Net`: `shield_type` stores the `ShieldType`
name (the empty string models `shield_type=None`); `upper_space =
lower_space = space`. -/
structure NetR where
  name : String
  layer : ℤ
  shield_type : String
  width : ℚ
  space : ℚ
  x_min : ℚ
  x_max : ℚ
  pins : Option (List Pin)
  group_no : Option String
  deriving DecidableEq, Repr

/-- `Net.__init__`.  Every call site passes either both of `x_min`/`x_max`
or neither, modelled by `xs`.  With `xs = none` the bounds are derived from
the pins (`none` models the assertion failure on missing pins and the
`ValueError` of `min([])` on an empty pin list), and a degenerate derived
trunk is widened by `Decimal("0.0000001")`.  Explicitly supplied bounds are
stored unchanged — the widening branch is only reached when both bounds are
`None`. -/
def mkNet (name : String) (layer : ℤ) (width space : ℚ) (xs : Option (ℚ × ℚ))
    (pins : Option (List Pin)) (shield_type : Option String) (group_no : Option String) :
    Option NetR :=
  match xs with
  | some (a, b) => some ⟨name, layer, shield_type.getD "", width, space, a, b, pins, group_no⟩
  | none =>
    match pins with
    | none => none
    | some [] => none
    | some (p :: ps) =>
      let xmin := (ps.map Pin.x).foldl min p.x
      let xmax := (ps.map Pin.x).foldl max p.x
      let xmax2 := if xmin = xmax then xmax + 1 / 10000000 else xmax
      some ⟨name, layer, shield_type.getD "", width, space, xmin, xmax2,
        some (p :: ps), group_no⟩

/-- C9, counterexample: constructing a net with explicitly supplied equal
bounds `x_min = x_max = 1` stores them unchanged — the ε-widening claimed
for every zero-length trunk does not happen, leaving a degenerate
x-interval. -/
theorem C9_counterexample :
    (mkNet "n" 0 1 1 (some (1, 1)) none none none).map NetR.x_min = some 1 ∧
    (mkNet "n" 0 1 1 (some (1, 1)) none none none).map NetR.x_max = some 1 ∧
    (mkNet "n" 0 1 1 (some (1, 1)) none none none).map NetR.x_max
      ≠ some (1 + 1 / 10000000) := by
  refine ⟨rfl, rfl, ?_⟩
  simp only [mkNet, Option.map_some', Option.some.injEq]
  norm_num

/-- C9 (amended): the ε-widening of a zero-length trunk applies exactly
when `x_min` and `x_max` are derived from the pins: a pins-derived
degenerate trunk gets `x_max = x_min + 1e-7` and a non-degenerate
x-interval, while explicitly supplied bounds are stored unchanged, so an
explicit `x_min = x_max` remains degenerate. -/
theorem C9_amended (name : String) (layer : ℤ) (width space : ℚ) (p : Pin) (ps : List Pin)
    (st gno : Option String)
    (hdeg : (ps.map Pin.x).foldl min p.x = (ps.map Pin.x).foldl max p.x) :
    (mkNet name layer width space none (some (p :: ps)) st gno).map NetR.x_max =
      some ((ps.map Pin.x).foldl min p.x + 1 / 10000000) ∧
    (∀ n, mkNet name layer width space none (some (p :: ps)) st gno = some n →
      n.x_min < n.x_max) ∧
    (∀ a b : ℚ,
      (mkNet name layer width space (some (a, b)) (some (p :: ps)) st gno).map
        NetR.x_min = some a ∧
      (mkNet name layer width space (some (a, b)) (some (p :: ps)) st gno).map
        NetR.x_max = some b) := by
  refine ⟨?_, ?_, fun a b => ⟨rfl, rfl⟩⟩
  · simp only [mkNet, if_pos hdeg, Option.map_some', Option.some.injEq]
    rw [hdeg]
  · intro n hn
    simp only [mkNet, if_pos hdeg, Option.some.injEq] at hn
    rw [← hn]
    simp only
    rw [hdeg]
    norm_num

/-- Witness for C9 (amended): a net built from the single pin `(1, 0)` gets
the widened trunk `[1, 1 + 1e-7)`. -/
theorem C9_witness :
    (mkNet "n" 0 1 1 none (some [⟨1, 0⟩]) none none).map NetR.x_max =
      some (1 + 1 / 10000000) :=
  (C9_amended "n" 0 1 1 ⟨1, 0⟩ [] none none rfl).1

/-! ## C6: `trunk_division` (src/preprocessing.py) -/

/-- The allocatable width bound computed by `trunk_division` (and by
`get_unallocatable_net_dict_after_divisoin`): unshielded nets lose
`upper_space + lower_space`, shielded nets lose
`2·upper_space + 2·lower_space + 2·shield_width`. -/
def allocWidthMax (net : NetR) (shield_width routing_area_width : ℚ) : ℚ :=
  if net.shield_type = "" then routing_area_width - (net.space + net.space)
  else routing_area_width - (net.space * 2 + net.space * 2 + shield_width * 2)

/-- The child-construction loop of `trunk_division`
(`for i, width in enumerate(divided_widths)`). -/
def buildChildren (net : NetR) : ℕ → List ℚ → Option (List NetR)
  | _, [] => some []
  | i, width :: rest =>
    match mkNet (net.name ++ "_c" ++ toString i) net.layer width net.space none
        net.pins (some net.shield_type) net.group_no with
    | none => none
    | some child =>
      match buildChildren net (i + 1) rest with
      | none => none
      | some l => some (child :: l)

/-- `trunk_division(net, shield_width, routing_area_width)`: `none` models
the raised `ValueError` when the allocatable width bound is non-positive. -/
def trunk_division (net : NetR) (shield_width routing_area_width : ℚ) : Option (List NetR) :=
  if allocWidthMax net shield_width routing_area_width ≤ 0 then none
  else
    buildChildren net 0
      (divide_width net.width (allocWidthMax net shield_width routing_area_width))

/-- C6, counterexample: a shielded net (`shield_type = "S"`, `space = 1`,
`width = 6`) split for `shield_width = 1` and `area_width = 10` uses
`max_w = 10 - 4·1 - 2·1 = 4` and yields child widths `[4, 2]`; the claimed
formula `max_w = 10 - 2·1 - 2·1 = 6` would yield the single width `[6]`. -/
theorem C6_counterexample :
    (trunk_division ⟨"n", 1, "S", 6, 1, 0, 5, some [⟨0, 0⟩, ⟨5, 0⟩], none⟩ 1 10).map
        (fun l => l.map NetR.width) = some [4, 2] ∧
    divide_width 6 (10 - 2 * 1 - 2 * 1) = [6] ∧
    ¬(([4, 2] : List ℚ) = [6]) := by
  have h64 : ratTrunc ((6 : ℚ) / 4) = 1 := by
    rw [ratTrunc, if_neg (by norm_num), Int.floor_eq_iff]
    norm_num
  have h66 : ratTrunc ((6 : ℚ) / 6) = 1 := by
    rw [ratTrunc, if_neg (by norm_num), Int.floor_eq_iff]
    norm_num
  have hdw4 : divide_width 6 4 = [4, 2] := by
    unfold divide_width
    rw [h64]
    norm_num
  have hdw6 : divide_width 6 6 = [6] := by
    unfold divide_width
    rw [h66]
    norm_num
  have hawm : allocWidthMax ⟨"n", 1, "S", 6, 1, 0, 5, some [⟨0, 0⟩, ⟨5, 0⟩], none⟩ 1 10 = 4 := by
    unfold allocWidthMax
    rw [if_neg (by decide)]
    norm_num
  refine ⟨?_, ?_, by simp⟩
  · unfold trunk_division
    rw [hawm, if_neg (by norm_num), hdw4]
    norm_num [buildChildren, mkNet, min_def, max_def]
  · rw [show (10 : ℚ) - 2 * 1 - 2 * 1 = 6 by norm_num]
    exact hdw6

/-- The children built by `trunk_division` for a net with a non-empty pin
list: one per divided width, named `{name}_c{i}` and inheriting layer,
space, pins, shield type and group number. -/
theorem buildChildren_spec (net : NetR) (p : Pin) (ps : List Pin)
    (hp : net.pins = some (p :: ps)) :
    ∀ (ws : List ℚ) (i : ℕ), ∃ l, buildChildren net i ws = some l ∧
      l.map NetR.width = ws ∧
      ∀ j (hj : j < l.length),
        (l.get ⟨j, hj⟩).name = net.name ++ "_c" ++ toString (i + j) ∧
        (l.get ⟨j, hj⟩).layer = net.layer ∧
        (l.get ⟨j, hj⟩).space = net.space ∧
        (l.get ⟨j, hj⟩).pins = net.pins ∧
        (l.get ⟨j, hj⟩).shield_type = net.shield_type ∧
        (l.get ⟨j, hj⟩).group_no = net.group_no := by
  intro ws
  induction ws with
  | nil =>
    intro i
    exact ⟨[], rfl, rfl, fun j hj => absurd hj (by simp)⟩
  | cons w rest ih =>
    intro i
    obtain ⟨l, hl, hw, hprops⟩ := ih (i + 1)
    refine ⟨⟨net.name ++ "_c" ++ toString i, net.layer, net.shield_type, w, net.space,
        (ps.map Pin.x).foldl min p.x,
        (if (ps.map Pin.x).foldl min p.x = (ps.map Pin.x).foldl max p.x
          then (ps.map Pin.x).foldl max p.x + 1 / 10000000
          else (ps.map Pin.x).foldl max p.x),
        some (p :: ps), net.group_no⟩ :: l, ?_, ?_, ?_⟩
    · unfold buildChildren
      rw [hp]
      simp only [mkNet, Option.getD_some]
      rw [hl]
    · simp only [List.map_cons, hw]
    · intro j hj
      cases j with
      | zero =>
        refine ⟨?_, rfl, rfl, hp.symm, rfl, rfl⟩
        show net.name ++ "_c" ++ toString i = net.name ++ "_c" ++ toString (i + 0)
        rw [Nat.add_zero]
      | succ j' =>
        have hj' : j' < l.length := by
          simp only [List.length_cons] at hj
          omega
        have hthis := hprops j' hj'
        have harith : (i + 1) + j' = i + (j' + 1) := by omega
        rw [harith] at hthis
        exact hthis

/-- C6 (amended): `trunk_division(net, shield_w, area_w)` computes the
maximum allocatable child width as `max_w = area_w - 2·space` for a net
requiring no shield and `max_w = area_w - 4·space - 2·shield_w` for a net
requiring one; it raises (aborting the run) exactly when `max_w ≤ 0`, and
otherwise produces children named `{name}_c{i}` inheriting the parent's
layer, space, pins, shield_type and group_no, with widths
`divide_width(net.width, max_w)`. -/
theorem C6_amended (net : NetR) (sw aw : ℚ) (p : Pin) (ps : List Pin)
    (hp : net.pins = some (p :: ps)) :
    (allocWidthMax net sw aw =
      if net.shield_type = "" then aw - 2 * net.space else aw - 4 * net.space - 2 * sw) ∧
    (trunk_division net sw aw = none ↔ allocWidthMax net sw aw ≤ 0) ∧
    (∀ l, trunk_division net sw aw = some l →
      l.map NetR.width = divide_width net.width (allocWidthMax net sw aw) ∧
      ∀ j (hj : j < l.length),
        (l.get ⟨j, hj⟩).name = net.name ++ "_c" ++ toString j ∧
        (l.get ⟨j, hj⟩).layer = net.layer ∧
        (l.get ⟨j, hj⟩).space = net.space ∧
        (l.get ⟨j, hj⟩).pins = net.pins ∧
        (l.get ⟨j, hj⟩).shield_type = net.shield_type ∧
        (l.get ⟨j, hj⟩).group_no = net.group_no) := by
  obtain ⟨l₀, hl₀, hw₀, hp₀⟩ := buildChildren_spec net p ps hp
    (divide_width net.width (allocWidthMax net sw aw)) 0
  refine ⟨by unfold allocWidthMax; split_ifs <;> ring, ?_, ?_⟩
  · constructor
    · intro hnone
      by_contra hpos
      unfold trunk_division at hnone
      rw [if_neg hpos, hl₀] at hnone
      exact absurd hnone (by simp)
    · intro hle
      unfold trunk_division
      rw [if_pos hle]
  · intro l hl
    unfold trunk_division at hl
    by_cases hle : allocWidthMax net sw aw ≤ 0
    · rw [if_pos hle] at hl
      exact absurd hl (by simp)
    · rw [if_neg hle, hl₀] at hl
      simp only [Option.some.injEq] at hl
      subst hl
      refine ⟨hw₀, ?_⟩
      intro j hj
      have := hp₀ j hj
      simpa using this

/-- Witness for C6 (amended): an unshielded net of space 1 in an area of
width 2 has `max_w = 0`, so `trunk_division` fails. -/
theorem C6_witness :
    trunk_division ⟨"m", 1, "", 5, 1, 0, 5, some [⟨0, 0⟩], none⟩ 1 2 = none :=
  (C6_amended ⟨"m", 1, "", 5, 1, 0, 5, some [⟨0, 0⟩], none⟩ 1 2 ⟨0, 0⟩ [] rfl).2.1.mpr
    (by unfold allocWidthMax; rw [if_pos (by decide)]; norm_num)

/-! ## C8: `ShieldedNetList` construction (gcr/containers.py) -/

/-- `entities.Shield` as constructed by `ShieldedNetList`. -/
structure ShieldR where
  name : String
  stype : String
  layer : ℤ
  x_min : ℚ
  x_max : ℚ
  width : ℚ
  space : ℚ
  deriving DecidableEq, Repr

/-- An element of `ShieldedNetList.data`. -/
inductive SElem where
  | net (n : NetR)
  | shield (s : ShieldR)
  deriving DecidableEq, Repr

def shieldOf : SElem → Option ShieldR
  | SElem.shield s => some s
  | SElem.net _ => none

def netOf : SElem → Option NetR
  | SElem.net n => some n
  | SElem.shield _ => none

/-- `Net.group_name`: the name up to one character after the first `_`,
else up to the first `<`, else the whole name. -/
def group_name (name : String) : String :=
  match name.toList.findIdx? (· = '_') with
  | some i => (name.toList.take (i + 2)).asString
  | none =>
    match name.toList.findIdx? (· = '<') with
    | some i => (name.toList.take i).asString
    | none => name

/-- The `i ≥ 1` iterations of the `__build_netlist_with_shield` loop: for
each net, one shield whose x-interval takes the `max` of begins and of ends
of the previous and current nets, and whose space is the larger adjacent
space, followed by the net itself. -/
def perNetGo (gname st : String) (layer : ℤ) (sw : ℚ) : NetR → List NetR → List SElem
  | _, [] => []
  | prev, m :: rest =>
    SElem.shield ⟨gname, st, layer, max prev.x_min m.x_min, max prev.x_max m.x_max, sw,
        max prev.space m.space⟩
      :: SElem.net m :: perNetGo gname st layer sw m rest

/-- `ShieldedNetList.__init__` producing its `data` list; `none` models the
validation assertion on mixed shield types.  The `i = 0` iteration of the
per-net loop reads `netlist[i-1] = netlist[-1]` (the last net) for the
x-interval and `netlist[0].lower_space` for the space; the final shield
copies the last net's x-interval and upper space.  The group-shield branch
encloses the nets between two shields spanning the given x-interval. -/
def snl_build (netlist : List NetR) (xlo xhi sw : ℚ) : Option (List SElem) :=
  match netlist with
  | [] => some []
  | n :: rest =>
    if ((n :: rest).all fun m => m.shield_type = n.shield_type) then
      if n.shield_type = "" then some ((n :: rest).map SElem.net)
      else if 0 < n.shield_type.toList.count 'G' then
        some (SElem.shield ⟨group_name n.name ++ "-shield", n.shield_type, n.layer, xlo, xhi,
            sw, n.space⟩
          :: ((n :: rest).map SElem.net
            ++ [SElem.shield ⟨group_name n.name ++ "-shield", n.shield_type, n.layer, xlo,
                xhi, sw, ((n :: rest).getLast (List.cons_ne_nil n rest)).space⟩]))
      else
        some ((SElem.shield ⟨group_name n.name ++ "-shield", n.shield_type, n.layer,
              max (((n :: rest).getLast (List.cons_ne_nil n rest)).x_min) n.x_min,
              max (((n :: rest).getLast (List.cons_ne_nil n rest)).x_max) n.x_max, sw,
              n.space⟩
            :: SElem.net n
            :: perNetGo (group_name n.name ++ "-shield") n.shield_type n.layer sw n rest)
          ++ [SElem.shield ⟨group_name n.name ++ "-shield", n.shield_type, n.layer,
              ((n :: rest).getLast (List.cons_ne_nil n rest)).x_min,
              ((n :: rest).getLast (List.cons_ne_nil n rest)).x_max, sw,
              ((n :: rest).getLast (List.cons_ne_nil n rest)).space⟩])
    else none

theorem perNetGo_spec (gname st : String) (layer : ℤ) (sw : ℚ) :
    ∀ (ws : List NetR) (prev : NetR), ∃ ss : List ShieldR, ss.length = ws.length ∧
      perNetGo gname st layer sw prev ws =
        (ss.zip ws).flatMap (fun q => [SElem.shield q.1, SElem.net q.2]) := by
  intro ws
  induction ws with
  | nil => exact fun prev => ⟨[], rfl, rfl⟩
  | cons m rest ih =>
    intro prev
    obtain ⟨ss, hlen, heq⟩ := ih m
    refine ⟨⟨gname, st, layer, max prev.x_min m.x_min, max prev.x_max m.x_max, sw,
        max prev.space m.space⟩ :: ss, by simp [hlen], ?_⟩
    simp only [perNetGo, List.zip_cons_cons, List.flatMap_cons, heq]
    rfl

theorem zipflat_filterMap_net (ss : List ShieldR) :
    ∀ ns : List NetR, ss.length = ns.length →
      ((ss.zip ns).flatMap (fun q => [SElem.shield q.1, SElem.net q.2])).filterMap netOf
        = ns := by
  induction ss with
  | nil =>
    intro ns h
    cases ns with
    | nil => rfl
    | cons m ms => exact absurd h (by simp)
  | cons s ss ih =>
    intro ns h
    cases ns with
    | nil => exact absurd h (by simp)
    | cons m ms =>
      simp only [List.zip_cons_cons, List.flatMap_cons, List.filterMap_append]
      rw [ih ms (by simpa using h)]
      rfl

theorem zipflat_filterMap_shield (ss : List ShieldR) :
    ∀ ns : List NetR, ss.length = ns.length →
      ((ss.zip ns).flatMap (fun q => [SElem.shield q.1, SElem.net q.2])).filterMap shieldOf
        = ss := by
  induction ss with
  | nil =>
    intro ns h
    cases ns with
    | nil => rfl
    | cons m ms => exact absurd h (by simp)
  | cons s ss ih =>
    intro ns h
    cases ns with
    | nil => exact absurd h (by simp)
    | cons m ms =>
      simp only [List.zip_cons_cons, List.flatMap_cons, List.filterMap_append]
      rw [ih ms (by simpa using h)]
      rfl

theorem map_net_filterMap_shield (ns : List NetR) :
    (ns.map SElem.net).filterMap shieldOf = [] := by
  induction ns with
  | nil => rfl
  | cons m ms ih => simp [shieldOf, ih]

theorem map_net_filterMap_net (ns : List NetR) :
    (ns.map SElem.net).filterMap netOf = ns := by
  induction ns with
  | nil => rfl
  | cons m ms ih => simp [netOf, ih]

theorem filterMap_netOf_comp (ns : List NetR) :
    ns.filterMap (netOf ∘ SElem.net) = ns := by
  induction ns with
  | nil => rfl
  | cons m ms ih => simp [netOf, Function.comp, ih]

/-- C8: over a non-empty list of `k` nets sharing a non-empty shield type,
the built `ShieldedNetList` contains, for a per-net (non-group) type, the
`k` nets in order interleaved with `k+1` shields (one below each net, one
on top), and for a group type the `k` nets between exactly 2 shields, each
spanning the given enclosing x-interval. -/
theorem C8_shielded_netlist (n : NetR) (rest : List NetR) (xlo xhi sw : ℚ)
    (hall : ∀ m ∈ n :: rest, m.shield_type = n.shield_type) (ht : n.shield_type ≠ "") :
    (0 < n.shield_type.toList.count 'G' →
      ∀ l, snl_build (n :: rest) xlo xhi sw = some l →
        ∃ sb st', l = SElem.shield sb :: ((n :: rest).map SElem.net ++ [SElem.shield st']) ∧
          sb.x_min = xlo ∧ sb.x_max = xhi ∧ st'.x_min = xlo ∧ st'.x_max = xhi ∧
          (l.filterMap shieldOf).length = 2 ∧ l.filterMap netOf = n :: rest) ∧
    (¬ 0 < n.shield_type.toList.count 'G' →
      ∀ l, snl_build (n :: rest) xlo xhi sw = some l →
        ∃ ss : List ShieldR, ∃ sfin : ShieldR, ss.length = (n :: rest).length ∧
          l = ((ss.zip (n :: rest)).flatMap fun q => [SElem.shield q.1, SElem.net q.2])
            ++ [SElem.shield sfin] ∧
          (l.filterMap shieldOf).length = (n :: rest).length + 1 ∧
          l.filterMap netOf = n :: rest) := by
  have hval : ((n :: rest).all fun m => m.shield_type = n.shield_type) = true := by
    rw [List.all_eq_true]
    intro m hm
    exact decide_eq_true (hall m hm)
  constructor
  · intro hG l hl
    unfold snl_build at hl
    simp only at hl
    rw [if_pos hval, if_neg ht, if_pos hG] at hl
    simp only [Option.some.injEq] at hl
    subst hl
    refine ⟨_, _, rfl, rfl, rfl, rfl, rfl, ?_, ?_⟩
    · simp [List.filterMap_cons, List.filterMap_append, shieldOf, map_net_filterMap_shield]
    · simp [List.filterMap_cons, List.filterMap_append, shieldOf, netOf,
        map_net_filterMap_net, filterMap_netOf_comp]
  · intro hG l hl
    unfold snl_build at hl
    simp only at hl
    rw [if_pos hval, if_neg ht, if_neg hG] at hl
    simp only [Option.some.injEq] at hl
    subst hl
    obtain ⟨ss, hlen, heq⟩ := perNetGo_spec (group_name n.name ++ "-shield") n.shield_type
      n.layer sw rest n
    refine ⟨⟨group_name n.name ++ "-shield", n.shield_type, n.layer,
        max (((n :: rest).getLast (List.cons_ne_nil n rest)).x_min) n.x_min,
        max (((n :: rest).getLast (List.cons_ne_nil n rest)).x_max) n.x_max, sw,
        n.space⟩ :: ss,
      ⟨group_name n.name ++ "-shield", n.shield_type, n.layer,
        ((n :: rest).getLast (List.cons_ne_nil n rest)).x_min,
        ((n :: rest).getLast (List.cons_ne_nil n rest)).x_max, sw,
        ((n :: rest).getLast (List.cons_ne_nil n rest)).space⟩,
      by simp [hlen], ?_, ?_, ?_⟩
    · rw [heq]
      simp only [List.zip_cons_cons, List.flatMap_cons]
      rfl
    · have hstruct : (SElem.shield ⟨group_name n.name ++ "-shield", n.shield_type, n.layer,
            max (((n :: rest).getLast (List.cons_ne_nil n rest)).x_min) n.x_min,
            max (((n :: rest).getLast (List.cons_ne_nil n rest)).x_max) n.x_max, sw, n.space⟩
          :: SElem.net n
          :: perNetGo (group_name n.name ++ "-shield") n.shield_type n.layer sw n rest)
          ++ [SElem.shield ⟨group_name n.name ++ "-shield", n.shield_type, n.layer,
              ((n :: rest).getLast (List.cons_ne_nil n rest)).x_min,
              ((n :: rest).getLast (List.cons_ne_nil n rest)).x_max, sw,
              ((n :: rest).getLast (List.cons_ne_nil n rest)).space⟩]
          = (((⟨group_name n.name ++ "-shield", n.shield_type, n.layer,
                max (((n :: rest).getLast (List.cons_ne_nil n rest)).x_min) n.x_min,
                max (((n :: rest).getLast (List.cons_ne_nil n rest)).x_max) n.x_max, sw,
                n.space⟩ : ShieldR) :: ss).zip (n :: rest)).flatMap
              (fun q => [SElem.shield q.1, SElem.net q.2])
            ++ [SElem.shield ⟨group_name n.name ++ "-shield", n.shield_type, n.layer,
                ((n :: rest).getLast (List.cons_ne_nil n rest)).x_min,
                ((n :: rest).getLast (List.cons_ne_nil n rest)).x_max, sw,
                ((n :: rest).getLast (List.cons_ne_nil n rest)).space⟩] := by
        rw [heq]
        simp only [List.zip_cons_cons, List.flatMap_cons]
        rfl
      rw [hstruct, List.filterMap_append,
        zipflat_filterMap_shield _ (n :: rest) (by simp [hlen])]
      simp [shieldOf, hlen]
    · have hstruct : (SElem.shield ⟨group_name n.name ++ "-shield", n.shield_type, n.layer,
            max (((n :: rest).getLast (List.cons_ne_nil n rest)).x_min) n.x_min,
            max (((n :: rest).getLast (List.cons_ne_nil n rest)).x_max) n.x_max, sw, n.space⟩
          :: SElem.net n
          :: perNetGo (group_name n.name ++ "-shield") n.shield_type n.layer sw n rest)
          ++ [SElem.shield ⟨group_name n.name ++ "-shield", n.shield_type, n.layer,
              ((n :: rest).getLast (List.cons_ne_nil n rest)).x_min,
              ((n :: rest).getLast (List.cons_ne_nil n rest)).x_max, sw,
              ((n :: rest).getLast (List.cons_ne_nil n rest)).space⟩]
          = (((⟨group_name n.name ++ "-shield", n.shield_type, n.layer,
                max (((n :: rest).getLast (List.cons_ne_nil n rest)).x_min) n.x_min,
                max (((n :: rest).getLast (List.cons_ne_nil n rest)).x_max) n.x_max, sw,
                n.space⟩ : ShieldR) :: ss).zip (n :: rest)).flatMap
              (fun q => [SElem.shield q.1, SElem.net q.2])
            ++ [SElem.shield ⟨group_name n.name ++ "-shield", n.shield_type, n.layer,
                ((n :: rest).getLast (List.cons_ne_nil n rest)).x_min,
                ((n :: rest).getLast (List.cons_ne_nil n rest)).x_max, sw,
                ((n :: rest).getLast (List.cons_ne_nil n rest)).space⟩] := by
        rw [heq]
        simp only [List.zip_cons_cons, List.flatMap_cons]
        rfl
      rw [hstruct, List.filterMap_append,
        zipflat_filterMap_net _ (n :: rest) (by simp [hlen])]
      simp [netOf]

/-- Witness for C8: two nets with per-net shield type `"S"` build a stack
of 3 shields interleaving the 2 nets. -/
theorem C8_witness :
    (([SElem.shield ⟨"ab-shield", "S", 1, 1, 3, 1, 1⟩,
      SElem.net ⟨"ab", 1, "S", 1, 1, 0, 2, none, none⟩,
      SElem.shield ⟨"ab-shield", "S", 1, 1, 3, 1, 1⟩,
      SElem.net ⟨"cd", 1, "S", 1, 1, 1, 3, none, none⟩,
      SElem.shield ⟨"ab-shield", "S", 1, 1, 3, 1, 1⟩] :
        List SElem).filterMap shieldOf).length = 3 ∧
    ([SElem.shield ⟨"ab-shield", "S", 1, 1, 3, 1, 1⟩,
      SElem.net ⟨"ab", 1, "S", 1, 1, 0, 2, none, none⟩,
      SElem.shield ⟨"ab-shield", "S", 1, 1, 3, 1, 1⟩,
      SElem.net ⟨"cd", 1, "S", 1, 1, 1, 3, none, none⟩,
      SElem.shield ⟨"ab-shield", "S", 1, 1, 3, 1, 1⟩] :
        List SElem).filterMap netOf =
      [⟨"ab", 1, "S", 1, 1, 0, 2, none, none⟩, ⟨"cd", 1, "S", 1, 1, 1, 3, none, none⟩] := by
  have hsnl : snl_build [⟨"ab", 1, "S", 1, 1, 0, 2, none, none⟩,
      ⟨"cd", 1, "S", 1, 1, 1, 3, none, none⟩] 0 3 1 =
      some [SElem.shield ⟨"ab-shield", "S", 1, 1, 3, 1, 1⟩,
        SElem.net ⟨"ab", 1, "S", 1, 1, 0, 2, none, none⟩,
        SElem.shield ⟨"ab-shield", "S", 1, 1, 3, 1, 1⟩,
        SElem.net ⟨"cd", 1, "S", 1, 1, 1, 3, none, none⟩,
        SElem.shield ⟨"ab-shield", "S", 1, 1, 3, 1, 1⟩] := by
    unfold snl_build
    simp only
    rw [if_pos (by decide), if_neg (by decide), if_neg (by decide)]
    rw [show group_name "ab" ++ "-shield" = "ab-shield" from by decide]
    simp only [perNetGo, List.getLast, Option.some.injEq]
    norm_num [max_def]
  obtain ⟨ss, sfin, hlen, -, hcount, hnets⟩ :=
    (C8_shielded_netlist ⟨"ab", 1, "S", 1, 1, 0, 2, none, none⟩
      [⟨"cd", 1, "S", 1, 1, 1, 3, none, none⟩] 0 3 1
      (by intro m hm
          rcases List.mem_cons.mp hm with rfl | hm
          · rfl
          · rcases List.mem_cons.mp hm with rfl | hm
            · rfl
            · exact absurd hm (List.not_mem_nil m))
      (by decide)).2 (by decide) _ hsnl
  exact ⟨hcount, hnets⟩

end GCR
